import Mathlib

/-!
Verification of the streaming chat-orchestration engine of a self-hosted
chat backend (FastAPI + SQLAlchemy).  The Python sources are shallowly
embedded: text is `List Char`, machine integers are `Int`/`Nat`, fallible
calls return `Except`/`Option`, and the streaming loops become explicit
state-passing step functions.  Every definition is translated from the
corresponding Python function, named after it where Lean allows.
-/

/-- Text of the Python program, represented as a list of characters. -/
abbrev Chars := List Char

/-- Convert a Lean string literal to the character-list representation. -/
def chars (s : String) : Chars := s.data

/-- First index at which `pat` occurs as a contiguous substring of `l`
(Python `str.find` / `x in s`). -/
def findSub (pat : Chars) (l : Chars) : Option Nat :=
  if pat.isPrefixOf l then some 0
  else
    match l with
    | [] => none
    | _ :: t => (findSub pat t).map (· + 1)

/-- Python `pat in s`. -/
def containsSub (pat : Chars) (l : Chars) : Bool := (findSub pat l).isSome

/-- Python `str.strip()`: remove leading and trailing whitespace. -/
def pyStrip (l : Chars) : Chars :=
  ((l.dropWhile Char.isWhitespace).reverse.dropWhile Char.isWhitespace).reverse

/-- Python `str.replace(pat, rep)` (all occurrences); `fuel` bounds the
recursion and is always instantiated with the string length, which
suffices because each step consumes at least one character. -/
def replaceAllAux (pat rep : Chars) : Nat → Chars → Chars
  | 0, l => l
  | _ + 1, [] => []
  | fuel + 1, c :: t =>
    if pat ≠ [] ∧ pat.isPrefixOf (c :: t) then
      rep ++ replaceAllAux pat rep fuel ((c :: t).drop pat.length)
    else
      c :: replaceAllAux pat rep fuel t

def replaceAll (pat rep l : Chars) : Chars := replaceAllAux pat rep l.length l

/- ======================================================================
C4 — `run_calculator_tool` (app/ai/tools.py lines 52-58).

The Python implementation is
    value = eval(expression, {"__builtins__": {}})
i.e. full Python expression evaluation, not a restricted arithmetic
grammar.  We embed the relevant fragment of Python's expression
semantics: values are ints or strings, `+` concatenates strings and
`*` repeats them.  The tool is modelled on parsed expressions (Python's
parser is the identity on this fragment).
====================================================================== -/

/-- A Python runtime value reachable from calculator inputs (fragment). -/
inductive PyVal where
  | vint (n : Int)
  | vstr (s : Chars)
deriving DecidableEq, Repr

/-- A Python expression (fragment of what `eval` accepts). -/
inductive PyExpr where
  | lit (v : PyVal)
  | add (a b : PyExpr)
  | mul (a b : PyExpr)
deriving DecidableEq, Repr

/-- Python `+` on the embedded values (`int + int`, `str + str`). -/
def pyAdd : PyVal → PyVal → Except Chars PyVal
  | .vint a, .vint b => .ok (.vint (a + b))
  | .vstr a, .vstr b => .ok (.vstr (a ++ b))
  | _, _ => .error (chars "TypeError")

/-- Python `*` on the embedded values (`int * int`, `str * int`, `int * str`). -/
def pyMul : PyVal → PyVal → Except Chars PyVal
  | .vint a, .vint b => .ok (.vint (a * b))
  | .vstr a, .vint n => .ok (.vstr (List.flatten (List.replicate n.toNat a)))
  | .vint n, .vstr a => .ok (.vstr (List.flatten (List.replicate n.toNat a)))
  | _, _ => .error (chars "TypeError")

/-- Python `eval` on the embedded expression fragment (the globals dict
`{"__builtins__": {}}` blocks name lookups, which this fragment never
performs). -/
def pyEval : PyExpr → Except Chars PyVal
  | .lit v => .ok v
  | .add a b => do pyAdd (← pyEval a) (← pyEval b)
  | .mul a b => do pyMul (← pyEval a) (← pyEval b)

/-- Python `str(value)` on the embedded values. -/
def pyValStr : PyVal → Chars
  | .vint n => chars (toString n)
  | .vstr s => s

/-- `run_calculator_tool` (tools.py 52-58): `eval` the expression with
empty builtins; exceptions become the textual error result. -/
def run_calculator_tool (expression : PyExpr) : Chars :=
  match pyEval expression with
  | .ok v => pyValStr v
  | .error e => chars "表达式计算错误: " ++ e

/- ======================================================================
C10 — `_cosine_similarity` and `search_knowledge_chunks`
(app/db/crud.py lines 417-456).

Floats are embedded as rationals; `math.sqrt` is passed as an explicit
function parameter (the claims under verification do not depend on its
values, only on the `== 0` guards around it).  A stored chunk's
`embedding` column is a JSON string; it is represented here by its
decode outcome: `none` models a string on which `json.loads` fails or
that does not decode to a list.
====================================================================== -/

structure KnowledgeChunk where
  id : Nat
  embedding : Option (List ℚ)
deriving DecidableEq, Repr

/-- `_cosine_similarity` (crud.py 417-428). -/
def cosine_similarity (sqrt : ℚ → ℚ) (vec_a vec_b : List ℚ) : ℚ :=
  if vec_a = [] ∨ vec_b = [] ∨ vec_a.length ≠ vec_b.length then 0
  else
    let dot := ((vec_a.zip vec_b).map (fun p => p.1 * p.2)).sum
    let na := sqrt ((vec_a.map (fun a => a * a)).sum)
    let nb := sqrt ((vec_b.map (fun b => b * b)).sum)
    if na = 0 ∨ nb = 0 then 0 else dot / (na * nb)

/-- Python list slicing `l[:k]` for a possibly negative `k : int`. -/
def pySliceTo {α : Type} (k : Int) (l : List α) : List α :=
  if 0 ≤ k then l.take k.toNat
  else l.take (l.length - min l.length (-k).toNat)

/-- Stable descending insertion on the first component (an element moves
ahead only of strictly smaller scores), matching the result of Python's
stable `list.sort(key=lambda x: x[0], reverse=True)`. -/
def insertDesc (x : ℚ × KnowledgeChunk) :
    List (ℚ × KnowledgeChunk) → List (ℚ × KnowledgeChunk)
  | [] => [x]
  | y :: ys => if y.1 < x.1 then x :: y :: ys else y :: insertDesc x ys

def sortDesc : List (ℚ × KnowledgeChunk) → List (ℚ × KnowledgeChunk)
  | [] => []
  | x :: xs => insertDesc x (sortDesc xs)

/-- `search_knowledge_chunks` (crud.py 431-456): score every chunk whose
embedding decodes to a list, skipping the rest; sort by score
descending; return the first `top_k` chunks. -/
def search_knowledge_chunks (sqrt : ℚ → ℚ) (query_embedding : List ℚ)
    (all_chunks : List KnowledgeChunk) (top_k : Int) : List KnowledgeChunk :=
  let scored := all_chunks.filterMap fun chunk =>
    chunk.embedding.map fun emb => (cosine_similarity sqrt query_embedding emb, chunk)
  (pySliceTo top_k (sortDesc scored)).map (·.2)

/- ======================================================================
C6 — `MCPClient._sanitize_tool_name`, `get_all_tools`, `parse_tool_name`
(app/ai/mcp_client.py lines 187-246).

The registry is embedded as the ordered list of configured servers with
their tool names (Python dicts preserve insertion order).  The mapping
table `_tool_name_map` is rebuilt by `get_all_tools`; dictionary
assignment is last-write-wins, which `dictLookup` reproduces.
====================================================================== -/

/-- The character class `[a-zA-Z0-9_.\-:]` of `_sanitize_tool_name`. -/
def mcpAllowedChar (c : Char) : Bool :=
  c.isAlpha || c.isDigit || c = '_' || c = '.' || c = '-' || c = ':'

/-- `^[a-zA-Z_]`. -/
def mcpLeadChar (c : Char) : Bool := c.isAlpha || c = '_'

/-- `re.sub(r'_+', '_', s)`: collapse each run of underscores to one. -/
def collapseUnderscores : Chars → Chars
  | [] => []
  | [c] => [c]
  | a :: b :: rest =>
    if a = '_' ∧ b = '_' then collapseUnderscores (b :: rest)
    else a :: collapseUnderscores (b :: rest)

/-- `s.rstrip('_')`. -/
def rstripUnderscores (l : Chars) : Chars :=
  (l.reverse.dropWhile (· = '_')).reverse

/-- `_sanitize_tool_name` (mcp_client.py 187-203). -/
def sanitize_tool_name (name : Chars) : Chars :=
  let sanitized := name.map fun c => if mcpAllowedChar c then c else '_'
  let sanitized :=
    if sanitized ≠ [] ∧ ¬ (sanitized.head?.any mcpLeadChar) then
      '_' :: sanitized
    else sanitized
  let sanitized := collapseUnderscores sanitized
  let sanitized := rstripUnderscores sanitized
  if sanitized = [] then chars "unnamed" else sanitized

/-- An MCP registry: servers in registration order, each carrying its
tool names in listing order. -/
abbrev MCPRegistry := List (Chars × List Chars)

/-- The composite wire name `mcp_<safe_server>_<safe_tool>` built by
`get_all_tools` (mcp_client.py 213-216). -/
def mcpFullToolName (serverName toolName : Chars) : Chars :=
  chars "mcp_" ++ sanitize_tool_name serverName ++ ['_'] ++ sanitize_tool_name toolName

/-- The `_tool_name_map` rebuilt by `get_all_tools` (mcp_client.py
205-229): one entry per (server, tool) in registration order, keyed by
the sanitized composite name and storing the original pair. -/
def buildToolNameMap (registry : MCPRegistry) : List (Chars × (Chars × Chars)) :=
  registry.flatMap fun st =>
    st.2.map fun t => (mcpFullToolName st.1 t, (st.1, t))

/-- Lookup in a Python dict built by successive assignments: the last
assignment to a key wins. -/
def dictLookup {α : Type} (m : List (Chars × α)) (k : Chars) : Option α :=
  m.foldl (fun acc p => if p.1 = k then some p.2 else acc) none

/-- `full_tool_name.split("_", 2)` restricted to what the fallback path
of `parse_tool_name` uses: the text after `mcp_` split at its first
underscore, if it has one. -/
def splitOnceAt (c : Char) (l : Chars) : Option (Chars × Chars) :=
  match l with
  | [] => none
  | a :: t =>
    if a = c then some ([], t)
    else (splitOnceAt c t).map fun p => (a :: p.1, p.2)

/-- `parse_tool_name` (mcp_client.py 231-246): mapping-table lookup
first, then the legacy `split("_", 2)` fallback, else `(None, None)`. -/
def parse_tool_name (registry : MCPRegistry) (full_tool_name : Chars) :
    Option Chars × Option Chars :=
  match dictLookup (buildToolNameMap registry) full_tool_name with
  | some st => (some st.1, some st.2)
  | none =>
    if (chars "mcp_").isPrefixOf full_tool_name then
      match splitOnceAt '_' (full_tool_name.drop 4) with
      | some p => (some p.1, some p.2)
      | none => (none, none)
    else (none, none)


/- ======================================================================
C7 — delta normalization in `AIManager.chat` streaming mode
(app/ai/ai_manager.py lines 247-290).

One upstream frame's `choices[0].delta` is embedded as the three
optional fields the code reads; the events the generator yields for
that frame are computed by `processDelta`.
====================================================================== -/

/-- A normalized gateway event (`{"type": "thinking"|"content", ...}`). -/
inductive SEvent where
  | thinkingEv (s : Chars)
  | contentEv (s : Chars)
deriving DecidableEq, Repr

def SEvent.isThinking : SEvent → Bool
  | .thinkingEv _ => true
  | .contentEv _ => false

def SEvent.isContent : SEvent → Bool
  | .thinkingEv _ => false
  | .contentEv _ => true

/-- `choices[0].delta` of one upstream frame, with the fields the code
reads (`reasoning_content`, `thinking`, `content`); `none` models an
absent key. -/
structure Delta where
  reasoning_content : Option Chars
  thinking : Option Chars
  content : Option Chars
deriving DecidableEq, Repr

/-- Python `a or b` where `a` is an optional string (`None` and `""` are
falsy). -/
def pyOrStr (a : Option Chars) (b : Chars) : Chars :=
  match a with
  | some s => if s = [] then b else s
  | none => b

/-- `delta.get("reasoning_content") or delta.get("thinking") or ""`
(ai_manager.py 254). -/
def deltaReasoning (d : Delta) : Chars :=
  pyOrStr d.reasoning_content (pyOrStr d.thinking [])

/-- `delta.get("content") or ""` (ai_manager.py 255). -/
def deltaContent (d : Delta) : Chars :=
  pyOrStr d.content []

/-- The group and the match span end of
`re.search(r'<thought>(.*?)</thought>', s, re.DOTALL)`:
leftmost `<thought>`, then the first `</thought>` after it. -/
def thoughtMatch (s : Chars) : Option (Chars × Nat) :=
  match findSub (chars "<thought>") s with
  | none => none
  | some i =>
    let rest := s.drop (i + 9)
    match findSub (chars "</thought>") rest with
    | none => none
    | some j => some (rest.take j, i + 9 + j + 10)

/-- `re.sub(r'<thought>.*?</thought>', '', s, flags=re.DOTALL)`: drop
every non-overlapping leftmost-shortest `<thought>...</thought>` block.
`fuel` is always called with the string length, which suffices because
every removed block spans at least 19 characters. -/
def removeThoughtBlocksAux : Nat → Chars → Chars
  | 0, s => s
  | fuel + 1, s =>
    match thoughtMatch s with
    | none => s
    | some g =>
      (match findSub (chars "<thought>") s with
       | none => s
       | some i => s.take i ++ removeThoughtBlocksAux fuel (s.drop g.2))

def removeThoughtBlocks (s : Chars) : Chars := removeThoughtBlocksAux s.length s

/-- The Gemini `<thought>`-tag handling applied to a non-empty `content`
(ai_manager.py 267-287): possibly one extra `thinking` event, and the
content text that remains. -/
def contentThoughtSplit (content : Chars) : List SEvent × Chars :=
  if containsSub (chars "<thought>") content ∨
      containsSub (chars "</thought>") content then
    match thoughtMatch content with
    | some g => ([.thinkingEv g.1], removeThoughtBlocks content)
    | none =>
      if containsSub (chars "<thought>") content ∧
          ¬ containsSub (chars "</thought>") content then
        ([.thinkingEv (replaceAll (chars "<thought>") [] content)], [])
      else if containsSub (chars "</thought>") content ∧
          ¬ containsSub (chars "<thought>") content then
        ([.thinkingEv (replaceAll (chars "</thought>") [] content)], [])
      else ([], content)
  else ([], content)

/-- The events yielded for one frame's delta (ai_manager.py 257-290):
the reasoning field first (as `thinking`), then Gemini-style `<thought>`
blocks inside `content` (as `thinking`), then the remaining content. -/
def processDelta (d : Delta) : List SEvent :=
  let reasoning := deltaReasoning d
  let content := deltaContent d
  let evs1 : List SEvent :=
    if reasoning ≠ [] ∧ content = [] then [.thinkingEv reasoning]
    else if reasoning ≠ [] ∧ content ≠ [] then [.thinkingEv reasoning]
    else []
  let step2 : List SEvent × Chars :=
    if content ≠ [] then contentThoughtSplit content else ([], content)
  let evs3 : List SEvent :=
    if step2.2 ≠ [] then [.contentEv step2.2] else []
  evs1 ++ step2.1 ++ evs3

/- ======================================================================
Conversation store: `create_message` (app/db/crud.py 90-116) and the
keyword-argument protocol of its call sites.

`crud.create_message` accepts exactly the parameters
`db, conversation_id, role, content, token_info`.  Several call sites in
`app/main.py` pass additional keyword arguments (`tool_calls`,
`thinking_content`, `vision_content`, `message_events`); per Python
calling semantics such a call raises `TypeError` before the function
body runs.  The call is therefore modelled as `Except`: it succeeds only
when every keyword argument names a declared parameter.
====================================================================== -/

/-- Token accounting attached to an assistant message. -/
structure TokenInfo where
  model : Chars
  input_tokens : Int
  output_tokens : Int
  total_tokens : Int
  estimated : Bool
deriving DecidableEq, Repr

/-- A persisted `messages` row (app/db/models.py), restricted to the
columns `create_message` can populate. -/
structure MessageRow where
  conversation_id : Nat
  role : Chars
  content : Chars
  model : Option Chars
  input_tokens : Option Int
  output_tokens : Option Int
  total_tokens : Option Int
deriving DecidableEq, Repr

/-- A Python runtime error relevant to the embedded call sites. -/
inductive PyError where
  | typeError (msg : Chars)
  | httpError (status : Nat)
deriving DecidableEq, Repr

/-- The declared parameter names of `crud.create_message` (crud.py
90-96). -/
def create_message_params : List String :=
  ["db", "conversation_id", "role", "content", "token_info"]

/-- The body of `crud.create_message` (crud.py 97-116): token columns
are populated only for assistant messages carrying `token_info`. -/
def create_message (conversation_id : Nat) (role content : Chars)
    (token_info : Option TokenInfo) : MessageRow :=
  if role = chars "assistant" ∧ token_info.isSome then
    { conversation_id, role, content
      model := token_info.map (·.model),
      input_tokens := token_info.map (·.input_tokens),
      output_tokens := token_info.map (·.output_tokens),
      total_tokens := token_info.map (·.total_tokens) }
  else
    { conversation_id, role, content
      model := none, input_tokens := none, output_tokens := none,
      total_tokens := none }

/-- A Python call to `crud.create_message` with extra keyword arguments:
it raises `TypeError` unless every keyword names a declared parameter
(Python callable semantics; `create_message` declares no `**kwargs`). -/
def call_create_message (kwargs : List String) (conversation_id : Nat)
    (role content : Chars) (token_info : Option TokenInfo) :
    Except PyError MessageRow :=
  match kwargs.find? (fun k => ¬ create_message_params.contains k) with
  | some bad =>
    .error (.typeError (chars "create_message() got an unexpected keyword argument " ++
      chars "'" ++ chars bad ++ chars "'"))
  | none => .ok (create_message conversation_id role content token_info)

/-- The keyword arguments used by `save_partial_message`
(main.py 449-452). -/
def save_partial_kwargs : List String := ["tool_calls", "thinking_content"]

/-- The keyword arguments used by the streaming finalization paths
(main.py 2759-2761 and 2856-2858). -/
def stream_save_kwargs : List String :=
  ["tool_calls", "thinking_content", "vision_content", "message_events"]

/-- Result of the `save_partial_message` endpoint. -/
inductive SaveOutcome where
  | notSaved
  | saved (msg : MessageRow)
deriving DecidableEq, Repr

/-- The interruption marker appended by `save_partial_message`
(main.py 440). -/
def interruptionMark : Chars := chars "\n\n[输出被中断]"

/-- `save_partial_message` (main.py 421-454): 404 when the conversation
is missing; whitespace-only content is not saved; otherwise the stripped
content plus the interruption marker is handed to `crud.create_message`
with keyword arguments `tool_calls` and `thinking_content`. -/
def save_partial_message (conversationExists : Bool) (conversation_id : Nat)
    (content : Chars) (modelName : Option Chars) :
    Except PyError SaveOutcome :=
  if ¬ conversationExists then .error (.httpError 404)
  else if pyStrip content = [] then .ok .notSaved
  else
    let content_with_mark := pyStrip content ++ interruptionMark
    let token_info : TokenInfo :=
      { model := modelName.getD (chars "unknown"),
        input_tokens := 0, output_tokens := 0, total_tokens := 0,
        estimated := false }
    match call_create_message save_partial_kwargs conversation_id
        (chars "assistant") content_with_mark (some token_info) with
    | .ok msg => .ok (.saved msg)
    | .error e => .error e

/- ======================================================================
The streaming tool-mode round machine (app/main.py `event_stream`, tool
mode, lines 2340-2761): XML tool-call detection over the thinking and
content channels, usage accumulation, and the end-of-stream blocks.

Chunks are the values yielded by `AIManager.chat(stream=True)`:
`usage` dicts carry the keys `model`, `input_tokens`, `output_tokens`,
`total_tokens` built at ai_manager.py 240-245; `thinking` and `content`
chunks carry text.  Client-visible SSE frames become `OEvent`s (the
constant-text `thinking_start` / tool progress frames carry no
chunk-derived text and are omitted).
====================================================================== -/

/-- The `usage` payload yielded by the gateway (ai_manager.py 240-245). -/
structure UsageInfo where
  model : Chars
  input_tokens : Int
  output_tokens : Int
  total_tokens : Int
deriving DecidableEq, Repr

/-- `usage.get(key, 0)` on the gateway's usage dict: only the keys
actually present return values. -/
def usageDictGet (u : UsageInfo) (key : Chars) : Int :=
  if key = chars "input_tokens" then u.input_tokens
  else if key = chars "output_tokens" then u.output_tokens
  else if key = chars "total_tokens" then u.total_tokens
  else 0

/-- A chunk of the gateway's normalized stream. -/
inductive Chunk where
  | usage (u : UsageInfo)
  | thinkingCk (s : Chars)
  | contentCk (s : Chars)
deriving DecidableEq, Repr

/-- A client-visible SSE frame carrying chunk-derived text. -/
inductive OEvent where
  | thinkingStartFrame
  | thinkingFrame (s : Chars)
  | thinkingEndFrame (s : Chars)
  | dataFrame (s : Chars)
  | metaFrame (t : TokenInfo)
deriving DecidableEq, Repr

/-- Python's `\s` class (ASCII range relevant here). -/
def pyWS (c : Char) : Bool :=
  c = ' ' ∨ c = '\t' ∨ c = '\n' ∨ c = '\r' ∨ c = '\x0b' ∨ c = '\x0c'

/-- Case-insensitive literal match: consume `pat` (given lowercase) from
the front of `l`, returning the rest. -/
def ciPrefix : Chars → Chars → Option Chars
  | [], l => some l
  | _ :: _, [] => none
  | p :: ps, c :: cs => if c.toLower = p then ciPrefix ps cs else none

def dropWSPipe (l : Chars) : Chars := l.dropWhile (fun c => pyWS c || c = '|')
def dropWS (l : Chars) : Chars := l.dropWhile pyWS

/-- The optional `(?:DSML\s*\|)?` group. -/
def dsmlSkip (l : Chars) : Chars :=
  match ciPrefix (chars "dsml") l with
  | some r =>
    match dropWS r with
    | '|' :: r2 => r2
    | _ => l
  | none => l

/-- The optional `(?:antml:)?` group. -/
def antmlSkip (l : Chars) : Chars := (ciPrefix (chars "antml:") l).getD l

/-- `function_calls\s*>` — the tail shared by the opening and closing
tag patterns. -/
def fcTail (l : Chars) : Bool :=
  match ciPrefix (chars "function_calls") l with
  | none => false
  | some r =>
    match dropWS r with
    | '>' :: _ => true
    | _ => false

/-- The part of both tag regexes after `<` (or `</`):
`[\s\|]*(?:DSML\s*\|)?\s*(?:antml:)?function_calls\s*>`,
case-insensitively (re.IGNORECASE). -/
def matchAfterLt (l : Chars) : Bool :=
  fcTail (antmlSkip (dropWS (dsmlSkip (dropWSPipe l))))

/-- Whether the opening-tag regex
`<[\s\|]*(?:DSML\s*\|)?\s*(?:antml:)?function_calls\s*>` matches at the
start of `l`. -/
def matchFCOpenAt (l : Chars) : Bool :=
  match l with
  | '<' :: r => matchAfterLt r
  | _ => false

/-- Whether the closing-tag regex (same with `</`) matches at the start
of `l`. -/
def matchFCCloseAt (l : Chars) : Bool :=
  match l with
  | '<' :: '/' :: r => matchAfterLt r
  | _ => false

/-- `re.search`: index of the leftmost match of `m`. -/
def searchIdx (m : Chars → Bool) (l : Chars) : Option Nat :=
  if m l then some 0
  else
    match l with
    | [] => none
    | _ :: t => (searchIdx m t).map (· + 1)

def fcOpenSearch (l : Chars) : Option Nat := searchIdx matchFCOpenAt l
def fcCloseFound (l : Chars) : Bool := (searchIdx matchFCCloseAt l).isSome

/-- Last index satisfying `p` (Python `str.rfind`). -/
def rfindIdx (p : Char → Bool) : Chars → Option Nat
  | [] => none
  | c :: t =>
    match rfindIdx p t with
    | some i => some (i + 1)
    | none => if p c then some 0 else none

/-- `.lower().replace(' ', '').replace('\n', '')`. -/
def lowerNoWsNl (l : Chars) : Chars :=
  (l.map Char.toLower).filter (fun c => ¬ (c = ' ' ∨ c = '\n'))

/-- `possible_starts` (main.py 2413). -/
def possible_starts : List Chars :=
  [chars "<function_calls>", chars "<|dsml|function_calls>", chars "<|",
   chars "<f", chars "<fu", chars "<fun", chars "<func", chars "<funct",
   chars "<functi", chars "<functio", chars "<function", chars "<function_",
   chars "<function_c", chars "<function_ca", chars "<function_cal",
   chars "<function_call", chars "<function_calls", chars "<ds",
   chars "<dsm", chars "<dsml"]

/-- `ps.rstrip('>')`. -/
def rstripGt (l : Chars) : Chars := (l.reverse.dropWhile (· = '>')).reverse

/-- The thinking-channel look-ahead test (main.py 2408-2417): could the
text from the last `<` be the start of a tool-call tag? -/
def potentialXmlInThinking (soFar : Chars) : Bool :=
  match rfindIdx (· = '<') soFar with
  | none => false
  | some i =>
    let remaining := lowerNoWsNl (soFar.drop i)
    possible_starts.any fun ps =>
      remaining.isPrefixOf ps || (rstripGt ps).isPrefixOf remaining

/-- `target_tags` (main.py 2471-2475; the first entry is repeated in the
source). -/
def target_tags : List Chars :=
  [chars "<function_calls>", chars "<function_calls>",
   chars "<|dsml|function_calls>"]

/-- The content-channel look-ahead test (main.py 2464-2491): a proper
prefix of a target tag, abandoned past 50 characters. -/
def potentialXmlInContent (pending_content : Chars) : Bool :=
  match rfindIdx (· = '<') pending_content with
  | none => false
  | some i =>
    let remaining := lowerNoWsNl (pending_content.drop i)
    let p0 := target_tags.any fun tag =>
      remaining.isPrefixOf tag && decide (remaining.length < tag.length)
    if p0 ∧ remaining.length > 50 then false else p0

/-- State threaded through one tool-mode streaming round
(main.py 2216-2352 initialisations). -/
structure RState where
  accumulated : List Chars
  thinkingContent : List Chars
  thinkingBuffer : List Chars
  pendingOutput : List Chars
  inXml : Bool
  hasXml : Bool
  xmlBuffer : Chars
  isThinkingDone : Bool
  hasRealContent : Bool
  totalIn : Int
  totalOut : Int
deriving Repr

/-- Round-entry state: buffers empty, token totals carried over from
the native tool loop. -/
def initRState (totalIn totalOut : Int) : RState :=
  { accumulated := [], thinkingContent := [], thinkingBuffer := [],
    pendingOutput := [], inXml := false, hasXml := false, xmlBuffer := [],
    isThinkingDone := false, hasRealContent := false,
    totalIn := totalIn, totalOut := totalOut }

/-- One iteration of the tool-mode streaming `for chunk in ...` body
(main.py 2354-2547).  Empty text chunks are no-ops (`if thinking:` /
`if delta:` guards). -/
def stepChunk (enableThinking : Bool) (st : RState) (ck : Chunk) :
    RState × List OEvent :=
  match ck with
  | .usage u =>
    ({ st with
        totalIn := st.totalIn + usageDictGet u (chars "prompt_tokens"),
        totalOut := st.totalOut + usageDictGet u (chars "completion_tokens") }, [])
  | .thinkingCk t =>
    if t = [] then (st, [])
    else
      let tc := st.thinkingContent ++ [t]
      let tb := st.thinkingBuffer ++ [t]
      let soFar := tb.flatten
      match fcOpenSearch soFar with
      | some i =>
        let before := soFar.take i
        let evs := if pyStrip before ≠ [] then [OEvent.thinkingEndFrame before] else []
        let xb := soFar.drop i
        if fcCloseFound xb then
          ({ st with
              thinkingContent := tc, thinkingBuffer := [],
              inXml := false, hasXml := true, xmlBuffer := xb,
              isThinkingDone := true }, evs)
        else
          ({ st with
              thinkingContent := tc, thinkingBuffer := [],
              inXml := true, xmlBuffer := xb, isThinkingDone := true }, evs)
      | none =>
        if st.inXml then
          let xb := st.xmlBuffer ++ t
          if fcCloseFound xb then
            ({ st with
                thinkingContent := tc, thinkingBuffer := tb,
                inXml := false, hasXml := true, xmlBuffer := xb }, [])
          else
            ({ st with
                thinkingContent := tc, thinkingBuffer := tb,
                xmlBuffer := xb }, [])
        else if potentialXmlInThinking soFar then
          ({ st with thinkingContent := tc, thinkingBuffer := tb }, [])
        else
          match rfindIdx (· = '<') soFar with
          | some j =>
            let safe := soFar.take j
            let evs := if pyStrip safe ≠ [] then [OEvent.thinkingFrame safe] else []
            ({ st with thinkingContent := tc, thinkingBuffer := [soFar.drop j] }, evs)
          | none =>
            ({ st with thinkingContent := tc, thinkingBuffer := [] },
              [OEvent.thinkingFrame soFar])
  | .contentCk d =>
    if d = [] then (st, [])
    else
      let st0 := { st with hasRealContent := true }
      if st0.inXml then
        let xb := st0.xmlBuffer ++ d
        if fcCloseFound xb then
          ({ st0 with xmlBuffer := xb, inXml := false, hasXml := true }, [])
        else
          ({ st0 with xmlBuffer := xb }, [])
      else
        let pend := st0.pendingOutput ++ [d]
        let pc := pend.flatten
        let potential := potentialXmlInContent pc
        match fcOpenSearch pc with
        | some i =>
          let before := pc.take i
          let withEnd :=
            if 0 < i ∧ pyStrip before ≠ [] then
              let (evsT, stT) :=
                if enableThinking ∧ ¬ st0.isThinkingDone then
                  ([OEvent.thinkingEndFrame st0.thinkingContent.flatten],
                    { st0 with isThinkingDone := true })
                else ([], st0)
              (evsT ++ [OEvent.dataFrame before],
                { stT with accumulated := stT.accumulated ++ [before] })
            else ([], st0)
          let xb := pc.drop i
          if fcCloseFound xb then
            ({ withEnd.2 with
                xmlBuffer := xb, pendingOutput := [],
                inXml := false, hasXml := true }, withEnd.1)
          else
            ({ withEnd.2 with
                xmlBuffer := xb, pendingOutput := [],
                inXml := true }, withEnd.1)
        | none =>
          if potential then ({ st0 with pendingOutput := pend }, [])
          else
            let withEnd :=
              if enableThinking ∧ ¬ st0.isThinkingDone then
                ([OEvent.thinkingEndFrame st0.thinkingContent.flatten],
                  { st0 with isThinkingDone := true })
              else ([], st0)
            if pc ≠ [] then
              ({ withEnd.2 with
                  accumulated := withEnd.2.accumulated ++ [pc],
                  pendingOutput := [] }, withEnd.1 ++ [OEvent.dataFrame pc])
            else ({ withEnd.2 with pendingOutput := [] }, withEnd.1)

/-- Fold of `stepChunk` over a round's chunk stream, accumulating the
emitted frames. -/
def runChunks (enableThinking : Bool) (st : RState) (chunks : List Chunk) :
    RState × List OEvent :=
  chunks.foldl
    (fun acc ck =>
      let r := stepChunk enableThinking acc.1 ck
      (r.1, acc.2 ++ r.2))
    (st, [])

/-- The three end-of-stream blocks (main.py 2549-2601): a leftover
thinking buffer holding a complete tag pair, an unterminated XML buffer
flushed as ordinary output, and leftover pending content. -/
def postStream (enableThinking : Bool) (st : RState) : RState × List OEvent :=
  let b1 :=
    if st.thinkingBuffer ≠ [] ∧ ¬ st.inXml ∧ ¬ st.hasXml then
      let soFar := st.thinkingBuffer.flatten
      match fcOpenSearch soFar with
      | some i =>
        let xb := soFar.drop i
        if fcCloseFound xb then
          let before := soFar.take i
          if pyStrip before ≠ [] ∧ ¬ st.isThinkingDone then
            ({ st with xmlBuffer := xb, hasXml := true, isThinkingDone := true },
              [OEvent.thinkingEndFrame before])
          else ({ st with xmlBuffer := xb, hasXml := true }, [])
        else ({ st with xmlBuffer := xb }, [])
      | none => (st, [])
    else (st, [])
  let st1 := b1.1
  let b2 :=
    if st1.inXml then
      if fcCloseFound st1.xmlBuffer then
        ({ st1 with inXml := false, hasXml := true }, [])
      else
        let withEnd :=
          if enableThinking ∧ ¬ st1.isThinkingDone then
            ([OEvent.thinkingEndFrame st1.thinkingContent.flatten],
              { st1 with isThinkingDone := true })
          else ([], st1)
        ({ withEnd.2 with
            accumulated := withEnd.2.accumulated ++ [st1.xmlBuffer],
            inXml := false }, withEnd.1 ++ [OEvent.dataFrame st1.xmlBuffer])
    else (st1, [])
  let st2 := b2.1
  let b3 :=
    if st2.pendingOutput ≠ [] ∧ ¬ st2.inXml then
      let withEnd :=
        if enableThinking ∧ ¬ st2.isThinkingDone then
          ([OEvent.thinkingEndFrame st2.thinkingContent.flatten],
            { st2 with isThinkingDone := true })
        else ([], st2)
      let oc := st2.pendingOutput.flatten
      if oc ≠ [] then
        ({ withEnd.2 with accumulated := withEnd.2.accumulated ++ [oc] },
          withEnd.1 ++ [OEvent.dataFrame oc])
      else (withEnd.2, withEnd.1)
    else (st2, [])
  (b3.1, b1.2 ++ b2.2 ++ b3.2)

/-- The after-loop blocks (main.py 2696-2726): the final `thinking_end`
frame and the promotion of thinking-only output to the visible answer
when no complete `<function_calls>...</function_calls>` pair is present
in it. -/
def afterLoop (enableThinking : Bool) (st : RState) : RState × List OEvent :=
  let evs1 : List OEvent :=
    if enableThinking ∧ ¬ st.isThinkingDone then
      [OEvent.thinkingEndFrame st.thinkingContent.flatten]
    else []
  if st.accumulated = [] ∧ st.thinkingContent ≠ [] then
    let full := st.thinkingContent.flatten
    match fcOpenSearch full with
    | some i =>
      if (searchIdx matchFCCloseAt full).isSome then
        ({ st with hasXml := true, xmlBuffer := full.drop i }, evs1)
      else
        ({ st with accumulated := [full], thinkingContent := [] },
          evs1 ++ [OEvent.dataFrame full])
    | none =>
      ({ st with accumulated := [full], thinkingContent := [] },
        evs1 ++ [OEvent.dataFrame full])
  else (st, evs1)

/-- The `token_info` dict built by the tool-mode finalization
(main.py 2728-2733): totals as accumulated, never estimated. -/
def toolModeTokenInfo (st : RState) (modelName : Chars) : TokenInfo :=
  { model := modelName,
    input_tokens := st.totalIn,
    output_tokens := st.totalOut,
    total_tokens := st.totalIn + st.totalOut,
    estimated := false }

/-- The canonical assistant text of the round: `"".join(accumulated)`
(main.py 2742). -/
def toolModeFullText (st : RState) : Chars := st.accumulated.flatten

/- ======================================================================
XML invocation extraction (main.py 2604-2627): `invoke_pattern` and
`param_pattern` applied to the collected buffer, with best-effort
integer coercion of parameter values.
====================================================================== -/

/-- The single-quote character (written by code point to keep string
handling uniform). -/
def squote : Char := Char.ofNat 39

/-- `<[\s\|]*(?:DSML\s*\|)?\s*(?:antml:)?invoke\s+name\s*=\s*["']([^"']+)["']\s*>`
matched at the start of `l`: returns the captured name and the rest. -/
def parseInvokeOpen (l : Chars) : Option (Chars × Chars) :=
  match l with
  | '<' :: r =>
    let h := antmlSkip (dropWS (dsmlSkip (dropWSPipe r)))
    match ciPrefix (chars "invoke") h with
    | none => none
    | some r1 =>
      match r1 with
      | [] => none
      | c :: _ =>
        if ¬ pyWS c then none
        else
          match ciPrefix (chars "name") (dropWS r1) with
          | none => none
          | some r3 =>
            match dropWS r3 with
            | '=' :: r5 =>
              match dropWS r5 with
              | q :: r7 =>
                if ¬ (q = '"' ∨ q = squote) then none
                else
                  let nm := r7.takeWhile fun c => ¬ (c = '"' ∨ c = squote)
                  if nm = [] then none
                  else
                    match r7.drop nm.length with
                    | q2 :: r8 =>
                      if ¬ (q2 = '"' ∨ q2 = squote) then none
                      else
                        match dropWS r8 with
                        | '>' :: r9 => some (nm, r9)
                        | _ => none
                    | [] => none
              | [] => none
            | _ => none
  | _ => none

/-- `</[\s\|]*(?:DSML\s*\|)?\s*(?:antml:)?invoke\s*>` at the start of
`l`: returns the rest. -/
def parseInvokeClose (l : Chars) : Option Chars :=
  match l with
  | '<' :: '/' :: r =>
    match ciPrefix (chars "invoke") (antmlSkip (dropWS (dsmlSkip (dropWSPipe r)))) with
    | none => none
    | some r1 =>
      match dropWS r1 with
      | '>' :: r2 => some r2
      | _ => none
  | _ => none

/-- Like `parseInvokeOpen` for `param_pattern`'s head, whose tail after
the closing quote is `[^>]*>`. -/
def parseParamOpen (l : Chars) : Option (Chars × Chars) :=
  match l with
  | '<' :: r =>
    let h := antmlSkip (dropWS (dsmlSkip (dropWSPipe r)))
    match ciPrefix (chars "parameter") h with
    | none => none
    | some r1 =>
      match r1 with
      | [] => none
      | c :: _ =>
        if ¬ pyWS c then none
        else
          match ciPrefix (chars "name") (dropWS r1) with
          | none => none
          | some r3 =>
            match dropWS r3 with
            | '=' :: r5 =>
              match dropWS r5 with
              | q :: r7 =>
                if ¬ (q = '"' ∨ q = squote) then none
                else
                  let nm := r7.takeWhile fun c => ¬ (c = '"' ∨ c = squote)
                  if nm = [] then none
                  else
                    match r7.drop nm.length with
                    | q2 :: r8 =>
                      if ¬ (q2 = '"' ∨ q2 = squote) then none
                      else
                        match r8.dropWhile (· ≠ '>') with
                        | '>' :: r9 => some (nm, r9)
                        | _ => none
                    | [] => none
              | [] => none
            | _ => none
  | _ => none

/-- `</[\s\|]*(?:DSML\s*\|)?\s*(?:antml:)?parameter\s*>`. -/
def parseParamClose (l : Chars) : Option Chars :=
  match l with
  | '<' :: '/' :: r =>
    match ciPrefix (chars "parameter") (antmlSkip (dropWS (dsmlSkip (dropWSPipe r)))) with
    | none => none
    | some r1 =>
      match dropWS r1 with
      | '>' :: r2 => some r2
      | _ => none
  | _ => none

/-- The non-greedy `(.*?)` up to the first position where `close`
matches: returns the body and the rest after the closing tag. -/
def scanForClose (close : Chars → Option Chars) : Chars → Option (Chars × Chars)
  | [] =>
    match close [] with
    | some rest => some ([], rest)
    | none => none
  | c :: t =>
    match close (c :: t) with
    | some rest => some ([], rest)
    | none => (scanForClose close t).map fun p => (c :: p.1, p.2)

/-- One full `invoke_pattern` match at the start of `l`. -/
def matchInvokeAt (l : Chars) : Option (Chars × Chars × Chars) :=
  (parseInvokeOpen l).bind fun p =>
    (scanForClose parseInvokeClose p.2).map fun b => (p.1, b.1, b.2)

/-- One full `param_pattern` match at the start of `l`. -/
def matchParamAt (l : Chars) : Option (Chars × Chars × Chars) :=
  (parseParamOpen l).bind fun p =>
    (scanForClose parseParamClose p.2).map fun b => (p.1, b.1, b.2)

/-- `re.finditer`: non-overlapping leftmost matches, scanning left to
right.  `fuel` is instantiated with the text length; every step strictly
shortens the text. -/
def finditerAux (m : Chars → Option (Chars × Chars × Chars)) :
    Nat → Chars → List (Chars × Chars)
  | 0, _ => []
  | fuel + 1, l =>
    match m l with
    | some r => (r.1, r.2.1) :: finditerAux m fuel r.2.2
    | none =>
      match l with
      | [] => []
      | _ :: t => finditerAux m fuel t

def findInvokes (l : Chars) : List (Chars × Chars) := finditerAux matchInvokeAt l.length l

def findParams (l : Chars) : List (Chars × Chars) := finditerAux matchParamAt l.length l

/-- Python `int(s)` on a stripped string: optional sign and decimal
digits, else failure. -/
def pyToInt (s : Chars) : Option Int :=
  let core : Chars × Int :=
    match s with
    | '+' :: t => (t, 1)
    | '-' :: t => (t, -1)
    | t => (t, 1)
  if core.1 ≠ [] ∧ core.1.all Char.isDigit then
    some (core.2 * (core.1.foldl (fun a c => a * 10 + (c.toNat - 48)) 0 : Nat))
  else none

/-- A parameter value with best-effort `int` coercion (main.py
2622-2627). -/
def paramValue (raw : Chars) : PyVal :=
  match pyToInt (pyStrip raw) with
  | some n => .vint n
  | none => .vstr (pyStrip raw)

/-- The invocation records parsed from a collected XML buffer
(main.py 2608-2627): ordered `(tool_name, parameters)` pairs. -/
def parseXmlInvocations (buf : Chars) : List (Chars × List (Chars × PyVal)) :=
  (findInvokes buf).map fun p =>
    (p.1, (findParams p.2).map fun q => (q.1, paramValue q.2))

/-- The literal embedded tool-call markup of claim C3. -/
def fcS : Chars :=
  chars "<function_calls><invoke name=\"web_search\"><parameter name=\"query\">cats</parameter></invoke></function_calls>"

/-- `l.extract p q` written with drop/take (the contiguous segment
`[p, q)`). -/
def extractCs (p q : Nat) (l : Chars) : Chars := (l.drop p).take (q - p)

/- ======================================================================
The plain (no-tools) streaming mode (app/main.py 2770-2863) and its
error envelope.
====================================================================== -/

/-- State of the plain streaming loop (main.py 2773-2775). -/
structure PState where
  accumulated : List Chars
  thinkingContent : List Chars
  isThinking : Bool
  tokenInfo : Option TokenInfo
deriving Repr

def initPState : PState :=
  { accumulated := [], thinkingContent := [], isThinking := false,
    tokenInfo := none }

/-- One iteration of the plain-mode `for chunk in ...` body
(main.py 2782-2814). -/
def plainStep (enableThinking : Bool) (st : PState) (ck : Chunk) :
    PState × List OEvent :=
  match ck with
  | .usage u =>
    ({ st with
        tokenInfo := some
          { model := u.model, input_tokens := u.input_tokens,
            output_tokens := u.output_tokens, total_tokens := u.total_tokens,
            estimated := false } }, [])
  | .thinkingCk t =>
    if t = [] then (st, [])
    else
      ({ st with thinkingContent := st.thinkingContent ++ [t] },
        [OEvent.thinkingFrame t])
  | .contentCk d =>
    if d = [] then (st, [])
    else
      let withEnd :=
        if enableThinking ∧ st.thinkingContent ≠ [] ∧ ¬ st.isThinking then
          ([OEvent.thinkingEndFrame st.thinkingContent.flatten],
            { st with isThinking := true })
        else ([], st)
      ({ withEnd.2 with accumulated := withEnd.2.accumulated ++ [d] },
        withEnd.1 ++ [OEvent.dataFrame d])

/-- Fold of `plainStep`, with the initial `thinking_start` frame
(main.py 2778-2779). -/
def plainRun (enableThinking : Bool) (chunks : List Chunk) :
    PState × List OEvent :=
  chunks.foldl
    (fun acc ck =>
      let r := plainStep enableThinking acc.1 ck
      (r.1, acc.2 ++ r.2))
    (initPState, if enableThinking then [OEvent.thinkingStartFrame] else [])

/-- `"".join(accumulated)` — the assistant text of a plain-mode turn
(main.py 2816). -/
def plainFullText (st : PState) : Chars := st.accumulated.flatten

/-- The plain-mode `token_info` (main.py 2822-2832): the upstream usage
if one arrived, otherwise a character-count estimate flagged
`estimated`. -/
def plainTokenInfo (st : PState) (modelName : Chars) (messagesJsonLen : Nat) :
    TokenInfo :=
  match st.tokenInfo with
  | some t => t
  | none =>
    { model := modelName,
      input_tokens := max 1 (messagesJsonLen / 4),
      output_tokens := max 1 ((plainFullText st).length / 4),
      total_tokens := max 1 (messagesJsonLen / 4) + max 1 ((plainFullText st).length / 4),
      estimated := true }

/-- The frames a fault-free plain-mode generator run yields before the
persistence call (main.py 2770-2858): loop frames, `meta`, `[DONE]`. -/
def plainNormalFrames (enableThinking : Bool) (chunks : List Chunk)
    (modelName : Chars) (messagesJsonLen : Nat) : List OEvent :=
  let r := plainRun enableThinking chunks
  r.2 ++ [OEvent.metaFrame (plainTokenInfo r.1 modelName messagesJsonLen),
    OEvent.dataFrame (chars "[DONE]")]

/-- The message of the `TypeError` raised by the plain-mode persistence
call `crud.create_message(..., tool_calls=None, ...)` (main.py
2856-2858 against crud.py 90-96). -/
def streamSaveError : Chars :=
  match call_create_message stream_save_kwargs 0 (chars "assistant") [] none with
  | .error (.typeError m) => m
  | _ => []

/-- The complete client-visible frame sequence of one plain-mode
streaming turn (main.py 2770-2863).  `fault = some (k, msg)` models an
upstream/network exception with text `msg` raised after `k` frames were
yielded; `fault = none` is the fault-free run, whose persistence call
itself raises `TypeError` which the same `except` turns into the inline
error frame.  Either way the handler appends
`data: [错误] <msg>` and `data: [DONE]` (main.py 2860-2863). -/
def eventStreamPlain (enableThinking : Bool) (chunks : List Chunk)
    (modelName : Chars) (messagesJsonLen : Nat)
    (fault : Option (Nat × Chars)) : List OEvent :=
  match fault with
  | some f =>
    (plainNormalFrames enableThinking chunks modelName messagesJsonLen).take f.1 ++
      [OEvent.dataFrame (chars "[错误] " ++ f.2), OEvent.dataFrame (chars "[DONE]")]
  | none =>
    plainNormalFrames enableThinking chunks modelName messagesJsonLen ++
      [OEvent.dataFrame (chars "[错误] " ++ streamSaveError),
        OEvent.dataFrame (chars "[DONE]")]

/- ======================================================================
The tool-mode streaming handler (main.py 2197-2768): the opening
`tool_start` frame, the native tool phase, the phase-2 streaming rounds
(built from the round machinery above), finalization, and the error
envelope of the surrounding try/except.
====================================================================== -/

/-- A client-visible SSE frame of the tool-mode handler: the
chunk-derived frames shared with the round machinery, plus the tool
progress frames specific to the tool phases (main.py 2207-2214, 2245,
2282-2311, 2324, 2635-2672).  As with `OEvent`, each frame carries its
discriminating payload fields; constant human-readable message text is
not modelled. -/
inductive TFrame where
  | ev (e : OEvent)
  | toolStartFrame (status : Chars)
  | toolProgressFrame (tool stage : Chars)
  | toolEndFrame (status : Chars)
deriving DecidableEq, Repr

/-- The opening `tool_start` frame (main.py 2207-2214), keyed by which
smart tools are enabled. -/
def openingToolStart (kb web mcp : Bool) : TFrame :=
  TFrame.toolStartFrame
    (if kb then chars "search_knowledge"
     else if web then chars "web_search"
     else if mcp then chars "mcp"
     else chars "thinking")

/-- One reply of the native tool phase (main.py 2234-2242): the usage a
non-streaming `run_with_tools` response reports (keyed
`prompt_tokens`/`completion_tokens`), and for each tool call the model
requested, the function name with the executor's outcome (`.ok` result
text, `.error` the text of the exception `_execute_tool` raised).  A
run's input lists the successive upstream replies, one per loop
iteration actually made. -/
structure NativeReply where
  promptTokens : Int
  completionTokens : Int
  toolCalls : List (Chars × Except Chars Chars)

/-- The native tool-phase loop (main.py 2224-2320): at most
`max_iterations = 3` upstream calls; usage is accumulated first
(2236-2238); a reply without tool calls yields the `skipped` `tool_end`
frame and exits (2243-2246); otherwise each requested call yields a
`start` progress frame and a `done` or `error` one (2282-2311) and the
loop continues.  Returns the frames, the accumulated usage, and whether
any tool ran (`tool_calls_info` nonempty at 2323). -/
def nativePhase : Nat → List NativeReply → Int → Int →
    List TFrame × Int × Int × Bool
  | 0, _, tin, tout => ([], tin, tout, false)
  | _ + 1, [], tin, tout => ([], tin, tout, false)
  | fuel + 1, r :: rs, tin, tout =>
    let tin1 := tin + r.promptTokens
    let tout1 := tout + r.completionTokens
    if r.toolCalls.isEmpty then
      ([TFrame.toolEndFrame (chars "skipped")], tin1, tout1, false)
    else
      let callFrames := r.toolCalls.flatMap fun c =>
        [TFrame.toolProgressFrame c.1 (chars "start"),
          TFrame.toolProgressFrame c.1
            (match c.2 with | .ok _ => chars "done" | .error _ => chars "error")]
      let rest := nativePhase fuel rs tin1 tout1
      (callFrames ++ rest.1, rest.2.1, rest.2.2.1, true)

/-- The complete native phase (main.py 2224-2327): the loop's frames
followed by the `done` `tool_end` frame when any tool ran (2323-2325),
with the accumulated usage totals. -/
def nativePhaseFrames (replies : List NativeReply) : List TFrame × Int × Int :=
  let r := nativePhase 3 replies 0 0
  (r.1 ++ (if r.2.2.2 then [TFrame.toolEndFrame (chars "done")] else []),
    r.2.1, r.2.2.1)

/-- External input of one phase-2 streaming round: the upstream chunk
stream and, for the `i`-th XML invocation parsed from a collected
buffer, the executor's outcome (`.ok` result text, `.error` exception
text — `_execute_tool` reaches the outside world). -/
structure RoundIn where
  chunks : List Chunk
  toolOutcomes : Nat → Except Chars Chars

/-- The frames of one XML invocation's execution (main.py 2629-2669):
`tool_start`, a `start` progress frame, then `done` or `error` according
to the executor's outcome. -/
def xmlInvokeFrames (nm : Chars) (outcome : Except Chars Chars) : List TFrame :=
  [TFrame.toolStartFrame nm,
    TFrame.toolProgressFrame nm (chars "start"),
    TFrame.toolProgressFrame nm
      (match outcome with | .ok _ => chars "done" | .error _ => chars "error")]

/-- The frames of one round's XML tool execution (main.py 2615-2672):
per parsed invocation in order, its execution frames, then the closing
`done` `tool_end` frame. -/
def xmlExecFrames (invs : List (Chars × List (Chars × PyVal)))
    (outcomes : Nat → Except Chars Chars) : List TFrame :=
  (invs.enum.flatMap fun p => xmlInvokeFrames p.2.1 (outcomes p.1)) ++
    [TFrame.toolEndFrame (chars "done")]

/-- The state reset applied before the next phase-2 round after an XML
tool execution (main.py 2347-2352 and 2686-2690): `accumulated` and the
token totals persist; the thinking state, both XML flags and every
buffer revert to round-entry defaults. -/
def roundReset (st : RState) : RState :=
  { accumulated := st.accumulated, thinkingContent := [], thinkingBuffer := [],
    pendingOutput := [], inXml := false, hasXml := false, xmlBuffer := [],
    isThinkingDone := false, hasRealContent := false,
    totalIn := st.totalIn, totalOut := st.totalOut }

/-- One phase-2 round (main.py 2340-2694) from state `st`: the optional
`thinking_start` frame (2344-2345), the chunk loop, the post-stream
blocks, then — when a complete XML tool call was collected (2604) — the
execution frames and `.inr` the reset state for the next round;
otherwise `.inl` the exit state (the `break` at 2694). -/
def phase2Round (en : Bool) (st : RState) (rin : RoundIn) :
    List TFrame × (RState ⊕ RState) :=
  let startFrames : List TFrame :=
    if en ∧ ¬ st.isThinkingDone then [TFrame.ev OEvent.thinkingStartFrame] else []
  let r := runChunks en st rin.chunks
  let p := postStream en r.1
  let frames := startFrames ++ (r.2 ++ p.2).map TFrame.ev
  if p.1.hasXml then
    (frames ++ xmlExecFrames (parseXmlInvocations p.1.xmlBuffer) rin.toolOutcomes,
      Sum.inr (roundReset p.1))
  else
    (frames, Sum.inl p.1)

/-- The phase-2 while loop (main.py 2340-2694): at most
`max_final_iterations = 5` rounds; each round either exits the loop or
executes its collected XML tools and continues from the reset state.
Returns all yielded frames and the loop-exit state.  A run's input
lists the successive upstream streams, one per round actually made. -/
def phase2Loop (en : Bool) : Nat → RState → List RoundIn → List TFrame × RState
  | 0, st, _ => ([], st)
  | _ + 1, st, [] => ([], st)
  | fuel + 1, st, rin :: rest =>
    let r := phase2Round en st rin
    match r.2 with
    | .inl st1 => (r.1, st1)
    | .inr st2 =>
      let r2 := phase2Loop en fuel st2 rest
      (r.1 ++ r2.1, r2.2)

/-- The frames of one fault-free tool-mode generator run up to the
persistence call (main.py 2197-2761): the opening `tool_start`, the
native phase, the phase-2 rounds from the round-entry state carrying the
native-phase totals, the after-loop blocks, the `meta` frame, and
`[DONE]` (2738-2739). -/
def toolNormalFrames (en kb web mcp : Bool) (replies : List NativeReply)
    (rounds : List RoundIn) (modelName : Chars) : List TFrame :=
  let np := nativePhaseFrames replies
  let p2 := phase2Loop en 5 (initRState np.2.1 np.2.2) rounds
  let al := afterLoop en p2.2
  [openingToolStart kb web mcp] ++ np.1 ++ p2.1 ++ al.2.map TFrame.ev ++
    [TFrame.ev (OEvent.metaFrame (toolModeTokenInfo al.1 modelName)),
      TFrame.ev (OEvent.dataFrame (chars "[DONE]"))]

/-- The complete client-visible frame sequence of one tool-mode
streaming turn (main.py 2197-2768).  `fault = some (k, msg)` models an
upstream/network exception with text `msg` raised after `k` frames were
yielded; `fault = none` is the fault-free run, whose persistence call
`crud.create_message(..., tool_calls=..., thinking_content=...,
vision_content=..., message_events=...)` (main.py 2759-2761, the same
four extra keywords as the plain path) itself raises `TypeError`, which
the same `except` (main.py 2763-2768) turns into the inline error frame.
Either way the handler appends `data: [错误] <msg>` and
`data: [DONE]`. -/
def eventStreamTool (en kb web mcp : Bool) (replies : List NativeReply)
    (rounds : List RoundIn) (modelName : Chars)
    (fault : Option (Nat × Chars)) : List TFrame :=
  match fault with
  | some f =>
    (toolNormalFrames en kb web mcp replies rounds modelName).take f.1 ++
      [TFrame.ev (OEvent.dataFrame (chars "[错误] " ++ f.2)),
        TFrame.ev (OEvent.dataFrame (chars "[DONE]"))]
  | none =>
    toolNormalFrames en kb web mcp replies rounds modelName ++
      [TFrame.ev (OEvent.dataFrame (chars "[错误] " ++ streamSaveError)),
        TFrame.ev (OEvent.dataFrame (chars "[DONE]"))]

/- ======================================================================
C5 — context assembly.  `crud.get_context_messages` (called at main.py
1622) and `ContextManager.optimize_messages` (app/utils/context_manager,
called at main.py 1890) have no definition among the sources — only
their call sites appear — so both are modelled from the spec.
====================================================================== -/

/-- A persisted message as the context loader sees it. -/
structure StoredMessage where
  id : Nat
  role : Chars
  content : Chars
deriving DecidableEq, Repr

/-- Modelled from the spec: `crud.get_context_messages` is absent from
the sources (only its caller at main.py 1622 is present).  Per §6 it
returns "only complete question/answer pairs, oldest-first": from the
conversation's messages in id order, each `user` message immediately
followed by an `assistant` message contributes the pair, and unpaired
messages are dropped. -/
def get_context_messages : List StoredMessage → List StoredMessage
  | u :: a :: rest =>
    if u.role = chars "user" ∧ a.role = chars "assistant" then
      u :: a :: get_context_messages rest
    else
      get_context_messages (a :: rest)
  | _ => []

/-- Modelled from the spec: `ContextManager.optimize_messages`
(app/utils/context_manager.py, absent from the sources; called with
`max_turns=6` at main.py 1890).  Per §4.4 the history is "bounded to a
fixed number of turns (oldest-first truncation — never silently drop
the newest turn)": keep the trailing `2 * max_turns` messages. -/
def optimize_messages (messages : List StoredMessage) (max_turns : Nat) :
    List StoredMessage :=
  messages.drop (messages.length - 2 * max_turns)

/-- Complete oldest-first question/answer pairing: the shape
`get_context_messages` must produce. -/
inductive CompletePairs : List StoredMessage → Prop where
  | nil : CompletePairs []
  | pair (u a : StoredMessage) (rest : List StoredMessage)
      (hu : u.role = chars "user") (ha : a.role = chars "assistant")
      (h : CompletePairs rest) : CompletePairs (u :: a :: rest)

/- ======================================================================
Detection invariants for claim C3: the state reached after consuming
the first `n` characters of `fcS`, however they were chunked.
====================================================================== -/

/-- State shape of the thinking-channel run on `fcS` after `n`
characters: scanning/buffering below 16 (the open tag's length),
collecting between 16 and 108, extracted at 108. -/
def thinkPhase (n : Nat) (st : RState) : Prop :=
  st.accumulated = [] ∧ st.pendingOutput = [] ∧ n ≤ 108 ∧
  ((n < 16 ∧ st.thinkingBuffer.flatten = fcS.take n ∧
      st.inXml = false ∧ st.hasXml = false) ∨
   (16 ≤ n ∧ n < 108 ∧
      (∃ p, 16 ≤ p ∧ p ≤ n ∧ st.thinkingBuffer.flatten = extractCs p n fcS) ∧
      st.inXml = true ∧ st.hasXml = false ∧ st.xmlBuffer = fcS.take n) ∨
   (n = 108 ∧ st.inXml = false ∧ st.hasXml = true ∧ st.xmlBuffer = fcS))

/-- State shape of the content-channel run on `fcS` after `n`
characters. -/
def contentPhase (n : Nat) (st : RState) : Prop :=
  st.accumulated = [] ∧ st.thinkingBuffer = [] ∧ n ≤ 108 ∧
  ((n < 16 ∧ st.pendingOutput.flatten = fcS.take n ∧
      st.inXml = false ∧ st.hasXml = false) ∨
   (16 ≤ n ∧ n < 108 ∧ st.pendingOutput = [] ∧
      st.inXml = true ∧ st.hasXml = false ∧ st.xmlBuffer = fcS.take n) ∨
   (n = 108 ∧ st.pendingOutput = [] ∧ st.inXml = false ∧ st.hasXml = true ∧
      st.xmlBuffer = fcS))

/- ======================================================================
Claim C9: promotion of thinking-only output.  The hypothesis is that
the detector's opening-tag pattern matches in no contiguous segment of
the thinking text (matches are contiguous, so this is exactly "no
`<function_calls>` opening tag is detected in it"), stated in the
bounded, decidable segment form.
====================================================================== -/

/-- No opening-tag match in any contiguous segment of `T`. -/
def noOpenTag (T : Chars) : Prop :=
  ∀ p ≤ T.length, ∀ q ≤ T.length, fcOpenSearch (extractCs p q T) = none

instance (T : Chars) : Decidable (noOpenTag T) := by
  unfold noOpenTag
  infer_instance

/-- State shape of a thinking-only run of text `T` containing no
detectable opening tag, after `n` characters. -/
def promoPhase (T : Chars) (n : Nat) (st : RState) : Prop :=
  st.accumulated = [] ∧ st.pendingOutput = [] ∧ st.inXml = false ∧
  st.hasXml = false ∧ st.thinkingContent.flatten = T.take n ∧ n ≤ T.length ∧
  ∃ p, p ≤ n ∧ st.thinkingBuffer.flatten = extractCs p n T


set_option maxRecDepth 10000

theorem insertDesc_length (x : ℚ × KnowledgeChunk)
    (l : List (ℚ × KnowledgeChunk)) :
    (insertDesc x l).length = l.length + 1 := by
  induction l with
  | nil => rfl
  | cons y ys ih =>
    by_cases h : y.1 < x.1 <;> simp [insertDesc, h, ih]

theorem sortDesc_length (l : List (ℚ × KnowledgeChunk)) :
    (sortDesc l).length = l.length := by
  induction l with
  | nil => rfl
  | cons x xs ih => simp [sortDesc, insertDesc_length, ih]

theorem insertDesc_mem {x y : ℚ × KnowledgeChunk}
    {l : List (ℚ × KnowledgeChunk)} (h : y ∈ insertDesc x l) :
    y = x ∨ y ∈ l := by
  induction l with
  | nil => simpa [insertDesc] using h
  | cons z zs ih =>
    by_cases hc : z.1 < x.1
    · simp only [insertDesc, if_pos hc, List.mem_cons] at h
      rcases h with h | h | h
      · exact Or.inl h
      · exact Or.inr (by simp [h])
      · exact Or.inr (by simp [h])
    · simp only [insertDesc, if_neg hc, List.mem_cons] at h
      rcases h with h | h
      · exact Or.inr (by simp [h])
      · rcases ih h with h | h
        · exact Or.inl h
        · exact Or.inr (by simp [h])

theorem sortDesc_mem {y : ℚ × KnowledgeChunk} {l : List (ℚ × KnowledgeChunk)}
    (h : y ∈ sortDesc l) : y ∈ l := by
  induction l with
  | nil => simpa [sortDesc] using h
  | cons x xs ih =>
    rcases insertDesc_mem (l := sortDesc xs) h with h | h
    · simp [h]
    · exact List.mem_cons_of_mem _ (ih h)

theorem dictLookup_eq_init {α : Type} (m : List (Chars × α)) (k : Chars)
    (h : ∀ p ∈ m, p.1 ≠ k) :
    ∀ init, m.foldl (fun acc p => if p.1 = k then some p.2 else acc) init = init := by
  induction m with
  | nil => intro init; rfl
  | cons p rest ih =>
    intro init
    have hp : p.1 ≠ k := h p (by simp)
    simp only [List.foldl_cons, if_neg hp]
    exact ih (fun q hq => h q (by simp [hq])) init

theorem dictLookup_foldl_of_nodup {α : Type} {m : List (Chars × α)} {k : Chars}
    {v : α} (hmem : (k, v) ∈ m) (hnd : (m.map (·.1)).Nodup) :
    ∀ init, m.foldl (fun acc p => if p.1 = k then some p.2 else acc) init = some v := by
  induction m with
  | nil => cases hmem
  | cons p rest ih =>
    simp only [List.map_cons, List.nodup_cons] at hnd
    intro init
    rcases List.mem_cons.mp hmem with heq | hmem'
    · have hk : p.1 = k := by rw [← heq]
      have hrest : ∀ q ∈ rest, q.1 ≠ k := by
        intro q hq hqk
        exact hnd.1 (hk ▸ hqk ▸ (List.mem_map.mpr ⟨q, hq, rfl⟩))
      have hv : p.2 = v := by rw [← heq]
      simp only [List.foldl_cons, if_pos hk]
      rw [dictLookup_eq_init rest k hrest (some p.2), hv]
    · have hp : p.1 ≠ k := by
        intro hpk
        exact hnd.1 (hpk ▸ (List.mem_map.mpr ⟨(k, v), hmem', by simp⟩))
      simp only [List.foldl_cons, if_neg hp]
      exact ih hmem' hnd.2 init

theorem dictLookup_of_nodup {α : Type} {m : List (Chars × α)} {k : Chars} {v : α}
    (hmem : (k, v) ∈ m) (hnd : (m.map (·.1)).Nodup) :
    dictLookup m k = some v :=
  dictLookup_foldl_of_nodup hmem hnd none

theorem contentThoughtSplit_fst_thinking (content : Chars) :
    ∀ e ∈ (contentThoughtSplit content).1, e.isThinking = true := by
  intro e he
  unfold contentThoughtSplit at he
  split at he
  · split at he
    · simp only [List.mem_singleton] at he
      subst he; rfl
    · split at he
      · simp only [List.mem_singleton] at he
        subst he; rfl
      · split at he
        · simp only [List.mem_singleton] at he
          subst he; rfl
        · simp at he
  · simp at he

/-- C7: for every upstream streaming frame whose delta carries both a
non-empty reasoning field (`reasoning_content` or `thinking`) and
non-empty `content`, the normalized event sequence for that frame is a
non-empty block of `thinking` events followed by the frame's `content`
events — every `thinking` event strictly precedes every `content`
event. -/
theorem thinking_event_precedes_content_event (d : Delta)
    (hr : deltaReasoning d ≠ []) (hc : deltaContent d ≠ []) :
    ∃ ts tl, processDelta d = ts ++ tl ∧ ts ≠ [] ∧
      (∀ e ∈ ts, e.isThinking = true) ∧ (∀ e ∈ tl, e.isContent = true) := by
  refine ⟨[SEvent.thinkingEv (deltaReasoning d)] ++ (contentThoughtSplit (deltaContent d)).1,
    (if (contentThoughtSplit (deltaContent d)).2 ≠ [] then
      [SEvent.contentEv (contentThoughtSplit (deltaContent d)).2] else []), ?_, ?_, ?_, ?_⟩
  · unfold processDelta
    have h1 : ¬ (deltaReasoning d ≠ [] ∧ deltaContent d = []) := fun h => hc h.2
    simp only []
    rw [if_neg h1, if_pos (And.intro hr hc), if_pos hc, List.append_assoc]
  · simp
  · intro e he
    rcases List.mem_append.mp he with he | he
    · simp only [List.mem_singleton] at he
      subst he; rfl
    · exact contentThoughtSplit_fst_thinking _ e he
  · intro e he
    split at he
    · simp only [List.mem_singleton] at he
      subst he; rfl
    · simp at he

/-- Witness for C7 at a concrete frame carrying both fields. -/
theorem thinking_event_precedes_content_event_witness :
    ∃ ts tl,
      processDelta ⟨some (chars "why"), none, some (chars "hi")⟩ = ts ++ tl ∧ ts ≠ [] ∧
      (∀ e ∈ ts, e.isThinking = true) ∧ (∀ e ∈ tl, e.isContent = true) :=
  thinking_event_precedes_content_event ⟨some (chars "why"), none, some (chars "hi")⟩
    (by decide) (by decide)

/-- C4: the calculator tool is a bare Python `eval`, not a restricted
arithmetic grammar: the non-arithmetic input expression `'a'*3` is
executed (string repetition) and returns `"aaa"` instead of a textual
error result. -/
theorem run_calculator_tool_executes_non_arithmetic :
    run_calculator_tool (.mul (.lit (.vstr (chars "a"))) (.lit (.vint 3))) =
      chars "aaa" ∧
    run_calculator_tool (.add (.lit (.vstr (chars "a"))) (.lit (.vstr (chars "b")))) =
      chars "ab" := by
  constructor <;> rfl

/-- C10: knowledge-chunk retrieval is total at its public interface:
the result holds at most `top_k` chunks (for the non-negative `top_k`
its callers pass), every returned chunk had a decodable embedding
(undecodable ones are skipped), and the cosine similarity of empty,
length-mismatched, or zero-norm vectors is the guarded value `0`. -/
theorem search_knowledge_chunks_total (sqrt : ℚ → ℚ) (query_embedding : List ℚ)
    (all_chunks : List KnowledgeChunk) (top_k : Int) (hk : 0 ≤ top_k) :
    (search_knowledge_chunks sqrt query_embedding all_chunks top_k).length ≤ top_k.toNat ∧
    (∀ c ∈ search_knowledge_chunks sqrt query_embedding all_chunks top_k,
      c.embedding ≠ none) ∧
    (∀ va vb : List ℚ, (va = [] ∨ vb = [] ∨ va.length ≠ vb.length) →
      cosine_similarity sqrt va vb = 0) ∧
    (∀ va vb : List ℚ,
      sqrt ((va.map (fun a => a * a)).sum) = 0 ∨
        sqrt ((vb.map (fun b => b * b)).sum) = 0 →
      cosine_similarity sqrt va vb = 0) := by
  refine ⟨?_, ?_, ?_, ?_⟩
  · unfold search_knowledge_chunks pySliceTo
    simp only [if_pos hk, List.length_map]
    exact List.length_take_le _ _
  · intro c hc
    unfold search_knowledge_chunks at hc
    rcases List.mem_map.mp hc with ⟨p, hp, hpc⟩
    have hp' : p ∈ sortDesc (all_chunks.filterMap fun chunk =>
        chunk.embedding.map fun emb =>
          (cosine_similarity sqrt query_embedding emb, chunk)) := by
      unfold pySliceTo at hp
      split at hp
      · exact List.mem_of_mem_take hp
      · exact List.mem_of_mem_take hp
    have hp'' := sortDesc_mem hp'
    rcases List.mem_filterMap.mp hp'' with ⟨chunk, _, hdec⟩
    rcases Option.map_eq_some'.mp hdec with ⟨emb, hemb, hpair⟩
    rw [← hpc, ← hpair]
    simp [hemb]
  · intro va vb h
    unfold cosine_similarity
    rw [if_pos h]
  · intro va vb h
    unfold cosine_similarity
    by_cases hg : va = [] ∨ vb = [] ∨ va.length ≠ vb.length
    · rw [if_pos hg]
    · rw [if_neg hg]
      simp only []
      rw [if_pos h]

/-- Witness for C10 at a concrete query, chunk store (one undecodable
chunk, one decodable) and `top_k = 1`. -/
theorem search_knowledge_chunks_total_witness :
    (search_knowledge_chunks id [1] [⟨0, none⟩, ⟨1, some [1]⟩] 1).length ≤ (1 : Int).toNat ∧
    (∀ c ∈ search_knowledge_chunks id [1] [⟨0, none⟩, ⟨1, some [1]⟩] 1,
      c.embedding ≠ none) ∧
    (∀ va vb : List ℚ, (va = [] ∨ vb = [] ∨ va.length ≠ vb.length) →
      cosine_similarity id va vb = 0) ∧
    (∀ va vb : List ℚ,
      id ((va.map (fun a => a * a)).sum) = 0 ∨
        id ((vb.map (fun b => b * b)).sum) = 0 →
      cosine_similarity id va vb = 0) :=
  search_knowledge_chunks_total id [1] [⟨0, none⟩, ⟨1, some [1]⟩] 1 (by decide)

/-- C6 counterexample: with two registered servers `搜索` and `服务`
that both sanitize to `unnamed` and both expose a tool `query`, the
mapping table keyed by the sanitized composite name is overwritten, so
`parse_tool_name` returns the *second* pair for the first pair's wire
name — the sanitize-then-lookup round trip is not lossless for every
registered pair. -/
theorem parse_tool_name_collision :
    mcpFullToolName (chars "搜索") (chars "query") = chars "mcp_unnamed_query" ∧
    mcpFullToolName (chars "服务") (chars "query") = chars "mcp_unnamed_query" ∧
    parse_tool_name [(chars "搜索", [chars "query"]), (chars "服务", [chars "query"])]
        (mcpFullToolName (chars "搜索") (chars "query")) =
      (some (chars "服务"), some (chars "query")) ∧
    parse_tool_name [(chars "搜索", [chars "query"]), (chars "服务", [chars "query"])]
        (mcpFullToolName (chars "搜索") (chars "query")) ≠
      (some (chars "搜索"), some (chars "query")) := by
  refine ⟨by decide, by decide, by decide, by decide⟩

/-- C6 (amended): for every registered external (server, tool) pair —
including non-ASCII names — whose sanitized composite wire name is not
shared with another registered pair (the mapping-table keys are
distinct), `parse_tool_name` applied to the composite name returns
exactly the original pair via the retained mapping table. -/
theorem parse_tool_name_roundtrip (registry : MCPRegistry)
    (hnd : ((buildToolNameMap registry).map (·.1)).Nodup)
    (serverName : Chars) (toolNames : List Chars) (toolName : Chars)
    (hs : (serverName, toolNames) ∈ registry) (ht : toolName ∈ toolNames) :
    parse_tool_name registry (mcpFullToolName serverName toolName) =
      (some serverName, some toolName) := by
  have hmem : (mcpFullToolName serverName toolName, (serverName, toolName)) ∈
      buildToolNameMap registry := by
    unfold buildToolNameMap
    rw [List.mem_flatMap]
    exact ⟨(serverName, toolNames), hs, List.mem_map.mpr ⟨toolName, ht, rfl⟩⟩
  unfold parse_tool_name
  rw [dictLookup_of_nodup hmem hnd]

/-- Witness for C6 (amended) at the spec's concrete example: server
`搜索服务`, tool `query`. -/
theorem parse_tool_name_roundtrip_witness :
    parse_tool_name [(chars "搜索服务", [chars "query"])]
        (mcpFullToolName (chars "搜索服务") (chars "query")) =
      (some (chars "搜索服务"), some (chars "query")) :=
  parse_tool_name_roundtrip [(chars "搜索服务", [chars "query"])] (by decide)
    (chars "搜索服务") [chars "query"] (chars "query") (by decide) (by decide)

/- ======================================================================
Search-result facts about the claim-C3 markup `fcS`, and generic
`searchIdx` lemmas.  Every prefix/segment of `fcS` a detector run can
inspect is one of finitely many concrete strings, so the search results
are established by decision.
====================================================================== -/

theorem searchIdx_nil (m : Chars → Bool) :
    searchIdx m [] = if m [] then some 0 else none := rfl

theorem searchIdx_cons (m : Chars → Bool) (c : Char) (t : Chars) :
    searchIdx m (c :: t) =
      if m (c :: t) then some 0 else (searchIdx m t).map (· + 1) := rfl

theorem searchIdx_of_match {m : Chars → Bool} {l : Chars} (h : m l = true) :
    searchIdx m l = some 0 := by
  unfold searchIdx
  rw [if_pos h]

theorem searchIdx_none_all {m : Chars → Bool} :
    ∀ {l : Chars}, searchIdx m l = none → ∀ k, m (l.drop k) = false := by
  intro l
  induction l with
  | nil =>
    intro h k
    rw [searchIdx_nil] at h
    split at h
    · cases h
    · rename_i hm
      simpa using (Bool.not_eq_true _).mp hm
  | cons c t ih =>
    intro h k
    rw [searchIdx_cons] at h
    split at h
    · cases h
    · rename_i hm
      match k with
      | 0 => simpa using (Bool.not_eq_true _).mp hm
      | k' + 1 =>
        have ht : searchIdx m t = none := by
          rcases hs : searchIdx m t with _ | i
          · rfl
          · rw [hs] at h; cases h
        simpa using ih ht k'

theorem searchIdx_all_none {m : Chars → Bool} :
    ∀ {l : Chars}, (∀ k, m (l.drop k) = false) → searchIdx m l = none := by
  intro l
  induction l with
  | nil =>
    intro h
    have h0 : m [] = false := by simpa using h 0
    simp [searchIdx_nil, h0]
  | cons c t ih =>
    intro h
    have h0 : m (c :: t) = false := by simpa using h 0
    rw [searchIdx_cons, if_neg (by simp [h0]),
      ih (fun k => by simpa using h (k + 1))]
    rfl

theorem fcS_length : fcS.length = 108 := by decide

theorem fcS_open_take : ∀ m < 109,
    fcOpenSearch (fcS.take m) = if m < 16 then none else some 0 := by decide

theorem fcS_close_take : ∀ m < 109,
    fcCloseFound (fcS.take m) = decide (m = 108) := by decide

theorem fcS_open_mid : ∀ p < 109, ∀ q < 109, 16 ≤ p →
    fcOpenSearch (extractCs p q fcS) = none := by decide

theorem fcS_potential_think : ∀ m < 16, 1 ≤ m →
    potentialXmlInThinking (fcS.take m) = true := by decide

theorem fcS_potential_content : ∀ m < 16, 1 ≤ m →
    potentialXmlInContent (fcS.take m) = true := by decide

theorem fcS_parse :
    parseXmlInvocations fcS =
      [(chars "web_search", [(chars "query", PyVal.vstr (chars "cats"))])] := by
  decide

/-- `extractCs` glue: adjacent segments concatenate. -/
theorem extractCs_append {a b c : Nat} (l : Chars) (hab : a ≤ b) (hbc : b ≤ c) :
    extractCs a b l ++ extractCs b c l = extractCs a c l := by
  unfold extractCs
  have hdrop : l.drop b = (l.drop a).drop (b - a) := by
    rw [List.drop_drop]
    congr 1
    omega
  rw [hdrop]
  rw [← List.take_add]
  congr 1
  omega

theorem extractCs_self (n : Nat) (l : Chars) : extractCs n n l = [] := by
  simp [extractCs]

theorem extractCs_zero (m : Nat) (l : Chars) : extractCs 0 m l = l.take m := by
  simp [extractCs]

theorem extractCs_full (l : Chars) : extractCs 0 l.length l = l := by
  simp [extractCs]

theorem extractCs_drop (p n j : Nat) (l : Chars) :
    (extractCs p n l).drop j = extractCs (p + j) n l := by
  unfold extractCs
  rw [List.drop_take, List.drop_drop]
  have h2 : n - p - j = n - (p + j) := by omega
  rw [h2]

theorem extractCs_length {n m : Nat} (l : Chars) (hnm : n ≤ m)
    (hm : m ≤ l.length) : (extractCs n m l).length = m - n := by
  unfold extractCs
  rw [List.length_take, List.length_drop]
  omega

theorem extractCs_ne_nil {n m : Nat} (l : Chars) (hnm : n < m)
    (hm : m ≤ l.length) : extractCs n m l ≠ [] := by
  intro h
  have := extractCs_length l (Nat.le_of_lt hnm) hm
  rw [h] at this
  simp at this
  omega

theorem rfindIdx_cons (p : Char → Bool) (c : Char) (t : Chars) :
    rfindIdx p (c :: t) =
      match rfindIdx p t with
      | some i => some (i + 1)
      | none => if p c then some 0 else none := rfl

theorem rfindIdx_lt_length {p : Char → Bool} :
    ∀ {l : Chars} {i : Nat}, rfindIdx p l = some i → i < l.length := by
  intro l
  induction l with
  | nil => intro i h; cases h
  | cons c t ih =>
    intro i h
    rw [rfindIdx_cons] at h
    rcases ht : rfindIdx p t with _ | j
    · simp only [ht] at h
      by_cases hp : p c
      · simp only [if_pos hp, Option.some.injEq] at h
        subst h
        simp
      · rw [if_neg hp] at h
        exact Option.noConfusion h
    · simp only [ht, Option.some.injEq] at h
      subst h
      have := ih ht
      simp only [List.length_cons]
      omega

/- ======================================================================
Branch-evaluation lemmas for `stepChunk`: each lemma captures one path
of the per-chunk handler under the search results that select it.
====================================================================== -/

theorem take_append_extract (l : Chars) {n m : Nat} (h : n ≤ m) :
    l.take n ++ extractCs n m l = l.take m := by
  rw [← extractCs_zero, ← extractCs_zero]
  exact extractCs_append l (Nat.zero_le n) h

theorem flatten_append_one (l : List Chars) (t : Chars) :
    (l ++ [t]).flatten = l.flatten ++ t := by
  simp

theorem stepChunk_think_nil (en : Bool) (st : RState) :
    stepChunk en st (.thinkingCk []) = (st, []) := by
  simp [stepChunk]

theorem stepChunk_content_nil (en : Bool) (st : RState) :
    stepChunk en st (.contentCk []) = (st, []) := by
  simp [stepChunk]

theorem stepChunk_think_buffer (en : Bool) (st : RState) (t : Chars)
    (ht : t ≠ [])
    (hsearch : fcOpenSearch ((st.thinkingBuffer ++ [t]).flatten) = none)
    (hix : st.inXml = false)
    (hpot : potentialXmlInThinking ((st.thinkingBuffer ++ [t]).flatten) = true) :
    stepChunk en st (.thinkingCk t) =
      ({ st with
          thinkingContent := st.thinkingContent ++ [t],
          thinkingBuffer := st.thinkingBuffer ++ [t] }, []) := by
  simp only [stepChunk, if_neg ht, hsearch, hix, hpot]
  simp

theorem stepChunk_think_open (en : Bool) (st : RState) (t : Chars)
    (ht : t ≠ [])
    (hsearch : fcOpenSearch ((st.thinkingBuffer ++ [t]).flatten) = some 0)
    (hclose : fcCloseFound ((st.thinkingBuffer ++ [t]).flatten) = false) :
    stepChunk en st (.thinkingCk t) =
      ({ st with
          thinkingContent := st.thinkingContent ++ [t], thinkingBuffer := [],
          inXml := true, xmlBuffer := (st.thinkingBuffer ++ [t]).flatten,
          isThinkingDone := true }, []) := by
  simp only [stepChunk, if_neg ht, hsearch]
  simp only [List.take_zero, List.drop_zero, hclose]
  simp [pyStrip]

theorem stepChunk_think_open_close (en : Bool) (st : RState) (t : Chars)
    (ht : t ≠ [])
    (hsearch : fcOpenSearch ((st.thinkingBuffer ++ [t]).flatten) = some 0)
    (hclose : fcCloseFound ((st.thinkingBuffer ++ [t]).flatten) = true) :
    stepChunk en st (.thinkingCk t) =
      ({ st with
          thinkingContent := st.thinkingContent ++ [t], thinkingBuffer := [],
          inXml := false, hasXml := true,
          xmlBuffer := (st.thinkingBuffer ++ [t]).flatten,
          isThinkingDone := true }, []) := by
  simp only [stepChunk, if_neg ht, hsearch]
  simp only [List.take_zero, List.drop_zero, hclose]
  simp [pyStrip]

theorem stepChunk_think_inxml (en : Bool) (st : RState) (t : Chars)
    (ht : t ≠ [])
    (hsearch : fcOpenSearch ((st.thinkingBuffer ++ [t]).flatten) = none)
    (hix : st.inXml = true)
    (hclose : fcCloseFound (st.xmlBuffer ++ t) = false) :
    stepChunk en st (.thinkingCk t) =
      ({ st with
          thinkingContent := st.thinkingContent ++ [t],
          thinkingBuffer := st.thinkingBuffer ++ [t],
          xmlBuffer := st.xmlBuffer ++ t }, []) := by
  simp only [stepChunk, if_neg ht, hsearch, hix, hclose]
  simp

theorem stepChunk_think_inxml_close (en : Bool) (st : RState) (t : Chars)
    (ht : t ≠ [])
    (hsearch : fcOpenSearch ((st.thinkingBuffer ++ [t]).flatten) = none)
    (hix : st.inXml = true)
    (hclose : fcCloseFound (st.xmlBuffer ++ t) = true) :
    stepChunk en st (.thinkingCk t) =
      ({ st with
          thinkingContent := st.thinkingContent ++ [t],
          thinkingBuffer := st.thinkingBuffer ++ [t],
          inXml := false, hasXml := true,
          xmlBuffer := st.xmlBuffer ++ t }, []) := by
  simp only [stepChunk, if_neg ht, hsearch, hix, hclose]
  simp

theorem stepChunk_think_emit (en : Bool) (st : RState) (t : Chars)
    (ht : t ≠ [])
    (hsearch : fcOpenSearch ((st.thinkingBuffer ++ [t]).flatten) = none)
    (hix : st.inXml = false)
    (hpot : potentialXmlInThinking ((st.thinkingBuffer ++ [t]).flatten) = false) :
    stepChunk en st (.thinkingCk t) =
      (match rfindIdx (· = '<') ((st.thinkingBuffer ++ [t]).flatten) with
       | some j =>
         ({ st with
             thinkingContent := st.thinkingContent ++ [t],
             thinkingBuffer := [((st.thinkingBuffer ++ [t]).flatten).drop j] },
           if pyStrip (((st.thinkingBuffer ++ [t]).flatten).take j) ≠ [] then
             [OEvent.thinkingFrame (((st.thinkingBuffer ++ [t]).flatten).take j)]
           else [])
       | none =>
         ({ st with
             thinkingContent := st.thinkingContent ++ [t], thinkingBuffer := [] },
           [OEvent.thinkingFrame ((st.thinkingBuffer ++ [t]).flatten)])) := by
  simp only [stepChunk, if_neg ht, hsearch, hix, hpot]
  simp

theorem stepChunk_content_pending (en : Bool) (st : RState) (d : Chars)
    (hd : d ≠ [])
    (hix : st.inXml = false)
    (hsearch : fcOpenSearch ((st.pendingOutput ++ [d]).flatten) = none)
    (hpot : potentialXmlInContent ((st.pendingOutput ++ [d]).flatten) = true) :
    stepChunk en st (.contentCk d) =
      ({ st with
          hasRealContent := true,
          pendingOutput := st.pendingOutput ++ [d] }, []) := by
  simp only [stepChunk, if_neg hd, hix, hsearch, hpot]
  simp

theorem stepChunk_content_open (en : Bool) (st : RState) (d : Chars)
    (hd : d ≠ [])
    (hix : st.inXml = false)
    (hsearch : fcOpenSearch ((st.pendingOutput ++ [d]).flatten) = some 0)
    (hclose : fcCloseFound ((st.pendingOutput ++ [d]).flatten) = false) :
    stepChunk en st (.contentCk d) =
      ({ st with
          hasRealContent := true,
          xmlBuffer := (st.pendingOutput ++ [d]).flatten,
          pendingOutput := [], inXml := true }, []) := by
  simp only [stepChunk, if_neg hd, hix, hsearch]
  simp only [List.drop_zero, hclose]
  simp

theorem stepChunk_content_open_close (en : Bool) (st : RState) (d : Chars)
    (hd : d ≠ [])
    (hix : st.inXml = false)
    (hsearch : fcOpenSearch ((st.pendingOutput ++ [d]).flatten) = some 0)
    (hclose : fcCloseFound ((st.pendingOutput ++ [d]).flatten) = true) :
    stepChunk en st (.contentCk d) =
      ({ st with
          hasRealContent := true,
          xmlBuffer := (st.pendingOutput ++ [d]).flatten,
          pendingOutput := [], inXml := false, hasXml := true }, []) := by
  simp only [stepChunk, if_neg hd, hix, hsearch]
  simp only [List.drop_zero, hclose]
  simp

theorem stepChunk_content_inxml (en : Bool) (st : RState) (d : Chars)
    (hd : d ≠ [])
    (hix : st.inXml = true)
    (hclose : fcCloseFound (st.xmlBuffer ++ d) = false) :
    stepChunk en st (.contentCk d) =
      ({ st with
          hasRealContent := true, xmlBuffer := st.xmlBuffer ++ d }, []) := by
  simp only [stepChunk, if_neg hd, hix, hclose]
  simp

theorem stepChunk_content_inxml_close (en : Bool) (st : RState) (d : Chars)
    (hd : d ≠ [])
    (hix : st.inXml = true)
    (hclose : fcCloseFound (st.xmlBuffer ++ d) = true) :
    stepChunk en st (.contentCk d) =
      ({ st with
          hasRealContent := true, xmlBuffer := st.xmlBuffer ++ d,
          inXml := false, hasXml := true }, []) := by
  simp only [stepChunk, if_neg hd, hix, hclose]
  simp

theorem thinkPhase_step (en : Bool) (st : RState) (n m : Nat)
    (hph : thinkPhase n st) (hnm : n ≤ m) (hm : m ≤ 108) :
    thinkPhase m (stepChunk en st (.thinkingCk (extractCs n m fcS))).1 ∧
    (stepChunk en st (.thinkingCk (extractCs n m fcS))).2 = [] := by
  obtain ⟨hacc, hpend, hn8, hcase⟩ := hph
  by_cases heq : n = m
  · subst heq
    rw [extractCs_self, stepChunk_think_nil]
    exact ⟨⟨hacc, hpend, hm, hcase⟩, rfl⟩
  have hlt : n < m := lt_of_le_of_ne hnm heq
  have hm' : m ≤ fcS.length := by rw [fcS_length]; exact hm
  have hcne : extractCs n m fcS ≠ [] := extractCs_ne_nil fcS hlt hm'
  have hm1 : 1 ≤ m := by omega
  rcases hcase with ⟨h16, hbuf, hix, hhx⟩ |
    ⟨h16, h108, ⟨p, hp16, hpn, hbuf⟩, hix, hhx, hxb⟩ | ⟨h108, hix, hhx, hxb⟩
  · -- scanning phase: n < 16
    have hflat : (st.thinkingBuffer ++ [extractCs n m fcS]).flatten = fcS.take m := by
      rw [flatten_append_one, hbuf, take_append_extract fcS hnm]
    by_cases hm16 : m < 16
    · -- still a proper prefix of the open tag: keep buffering
      have hsearch : fcOpenSearch ((st.thinkingBuffer ++ [extractCs n m fcS]).flatten) = none := by
        rw [hflat]
        have := fcS_open_take m (by omega)
        rwa [if_pos hm16] at this
      have hpot : potentialXmlInThinking ((st.thinkingBuffer ++ [extractCs n m fcS]).flatten) = true := by
        rw [hflat]
        exact fcS_potential_think m hm16 hm1
      rw [stepChunk_think_buffer en st _ hcne hsearch hix hpot]
      refine ⟨⟨hacc, hpend, hm, Or.inl ⟨hm16, ?_, hix, hhx⟩⟩, rfl⟩
      simpa using hflat
    · -- the open tag is complete: transition
      have h16m : 16 ≤ m := by omega
      have hsearch : fcOpenSearch ((st.thinkingBuffer ++ [extractCs n m fcS]).flatten) = some 0 := by
        rw [hflat]
        have := fcS_open_take m (by omega)
        rwa [if_neg (by omega)] at this
      by_cases hm108 : m = 108
      · have hclose : fcCloseFound ((st.thinkingBuffer ++ [extractCs n m fcS]).flatten) = true := by
          rw [hflat]
          have := fcS_close_take m (by omega)
          simpa [hm108] using this
        rw [stepChunk_think_open_close en st _ hcne hsearch hclose]
        refine ⟨⟨hacc, hpend, hm, Or.inr (Or.inr ⟨hm108, rfl, rfl, ?_⟩)⟩, rfl⟩
        rw [hflat, hm108, ← fcS_length, List.take_length]
      · have hclose : fcCloseFound ((st.thinkingBuffer ++ [extractCs n m fcS]).flatten) = false := by
          rw [hflat]
          have := fcS_close_take m (by omega)
          simpa [hm108] using this
        rw [stepChunk_think_open en st _ hcne hsearch hclose]
        refine ⟨⟨hacc, hpend, hm, Or.inr (Or.inl
          ⟨h16m, by omega, ⟨m, h16m, le_refl m, ?_⟩, rfl, hhx, ?_⟩)⟩, rfl⟩
        · simp [extractCs_self]
        · exact hflat
  · -- collecting phase: 16 ≤ n < 108
    have hflat : (st.thinkingBuffer ++ [extractCs n m fcS]).flatten = extractCs p m fcS := by
      rw [flatten_append_one, hbuf, extractCs_append fcS hpn hnm]
    have hsearch : fcOpenSearch ((st.thinkingBuffer ++ [extractCs n m fcS]).flatten) = none := by
      rw [hflat]
      exact fcS_open_mid p (by omega) m (by omega) hp16
    have hxbuf : st.xmlBuffer ++ extractCs n m fcS = fcS.take m := by
      rw [hxb, take_append_extract fcS hnm]
    by_cases hm108 : m = 108
    · have hclose : fcCloseFound (st.xmlBuffer ++ extractCs n m fcS) = true := by
        rw [hxbuf]
        have := fcS_close_take m (by omega)
        simpa [hm108] using this
      rw [stepChunk_think_inxml_close en st _ hcne hsearch hix hclose]
      refine ⟨⟨hacc, hpend, hm, Or.inr (Or.inr ⟨hm108, rfl, rfl, ?_⟩)⟩, rfl⟩
      rw [hxbuf, hm108, ← fcS_length, List.take_length]
    · have hclose : fcCloseFound (st.xmlBuffer ++ extractCs n m fcS) = false := by
        rw [hxbuf]
        have := fcS_close_take m (by omega)
        simpa [hm108] using this
      rw [stepChunk_think_inxml en st _ hcne hsearch hix hclose]
      refine ⟨⟨hacc, hpend, hm, Or.inr (Or.inl
        ⟨by omega, by omega, ⟨p, hp16, by omega, ?_⟩, hix, hhx, ?_⟩)⟩, rfl⟩
      · exact hflat
      · exact hxbuf
  · -- extracted phase: nothing more arrives
    omega

theorem contentPhase_step (en : Bool) (st : RState) (n m : Nat)
    (hph : contentPhase n st) (hnm : n ≤ m) (hm : m ≤ 108) :
    contentPhase m (stepChunk en st (.contentCk (extractCs n m fcS))).1 ∧
    (stepChunk en st (.contentCk (extractCs n m fcS))).2 = [] := by
  obtain ⟨hacc, htb, hn8, hcase⟩ := hph
  by_cases heq : n = m
  · subst heq
    rw [extractCs_self, stepChunk_content_nil]
    exact ⟨⟨hacc, htb, hm, hcase⟩, rfl⟩
  have hlt : n < m := lt_of_le_of_ne hnm heq
  have hm' : m ≤ fcS.length := by rw [fcS_length]; exact hm
  have hcne : extractCs n m fcS ≠ [] := extractCs_ne_nil fcS hlt hm'
  have hm1 : 1 ≤ m := by omega
  rcases hcase with ⟨h16, hbuf, hix, hhx⟩ |
    ⟨h16, h108, hpend, hix, hhx, hxb⟩ | ⟨h108, hpend, hix, hhx, hxb⟩
  · have hflat : (st.pendingOutput ++ [extractCs n m fcS]).flatten = fcS.take m := by
      rw [flatten_append_one, hbuf, take_append_extract fcS hnm]
    by_cases hm16 : m < 16
    · have hsearch : fcOpenSearch ((st.pendingOutput ++ [extractCs n m fcS]).flatten) = none := by
        rw [hflat]
        have := fcS_open_take m (by omega)
        rwa [if_pos hm16] at this
      have hpot : potentialXmlInContent ((st.pendingOutput ++ [extractCs n m fcS]).flatten) = true := by
        rw [hflat]
        exact fcS_potential_content m hm16 hm1
      rw [stepChunk_content_pending en st _ hcne hix hsearch hpot]
      refine ⟨⟨hacc, htb, hm, Or.inl ⟨hm16, ?_, hix, hhx⟩⟩, rfl⟩
      simpa using hflat
    · have h16m : 16 ≤ m := by omega
      have hsearch : fcOpenSearch ((st.pendingOutput ++ [extractCs n m fcS]).flatten) = some 0 := by
        rw [hflat]
        have := fcS_open_take m (by omega)
        rwa [if_neg (by omega)] at this
      by_cases hm108 : m = 108
      · have hclose : fcCloseFound ((st.pendingOutput ++ [extractCs n m fcS]).flatten) = true := by
          rw [hflat]
          have := fcS_close_take m (by omega)
          simpa [hm108] using this
        rw [stepChunk_content_open_close en st _ hcne hix hsearch hclose]
        refine ⟨⟨hacc, htb, hm, Or.inr (Or.inr ⟨hm108, rfl, rfl, rfl, ?_⟩)⟩, rfl⟩
        rw [hflat, hm108, ← fcS_length, List.take_length]
      · have hclose : fcCloseFound ((st.pendingOutput ++ [extractCs n m fcS]).flatten) = false := by
          rw [hflat]
          have := fcS_close_take m (by omega)
          simpa [hm108] using this
        rw [stepChunk_content_open en st _ hcne hix hsearch hclose]
        refine ⟨⟨hacc, htb, hm, Or.inr (Or.inl
          ⟨h16m, by omega, rfl, rfl, hhx, ?_⟩)⟩, rfl⟩
        exact hflat
  · have hxbuf : st.xmlBuffer ++ extractCs n m fcS = fcS.take m := by
      rw [hxb, take_append_extract fcS hnm]
    by_cases hm108 : m = 108
    · have hclose : fcCloseFound (st.xmlBuffer ++ extractCs n m fcS) = true := by
        rw [hxbuf]
        have := fcS_close_take m (by omega)
        simpa [hm108] using this
      rw [stepChunk_content_inxml_close en st _ hcne hix hclose]
      refine ⟨⟨hacc, htb, hm, Or.inr (Or.inr ⟨hm108, hpend, rfl, rfl, ?_⟩)⟩, rfl⟩
      rw [hxbuf, hm108, ← fcS_length, List.take_length]
    · have hclose : fcCloseFound (st.xmlBuffer ++ extractCs n m fcS) = false := by
        rw [hxbuf]
        have := fcS_close_take m (by omega)
        simpa [hm108] using this
      rw [stepChunk_content_inxml en st _ hcne hix hclose]
      refine ⟨⟨hacc, htb, hm, Or.inr (Or.inl
        ⟨by omega, by omega, hpend, hix, hhx, ?_⟩)⟩, rfl⟩
      exact hxbuf
  · omega

theorem runChunks_nil (en : Bool) (st : RState) : runChunks en st [] = (st, []) := rfl

theorem runChunks_foldl (en : Bool) :
    ∀ (cks : List Chunk) (st : RState) (evs0 : List OEvent),
      cks.foldl
        (fun acc ck =>
          let r := stepChunk en acc.1 ck
          (r.1, acc.2 ++ r.2))
        (st, evs0) =
      ((runChunks en st cks).1, evs0 ++ (runChunks en st cks).2) := by
  intro cks
  induction cks with
  | nil => intro st evs0; simp [runChunks]
  | cons ck cks ih =>
    intro st evs0
    show List.foldl _ ((stepChunk en st ck).1, evs0 ++ (stepChunk en st ck).2) cks = _
    rw [ih]
    have hrc : runChunks en st (ck :: cks) =
        ((runChunks en (stepChunk en st ck).1 cks).1,
          (stepChunk en st ck).2 ++ (runChunks en (stepChunk en st ck).1 cks).2) := by
      show List.foldl _ ((stepChunk en st ck).1, [] ++ (stepChunk en st ck).2) cks = _
      rw [ih]
      simp
    rw [hrc]
    simp

theorem runChunks_cons (en : Bool) (st : RState) (ck : Chunk) (cks : List Chunk) :
    runChunks en st (ck :: cks) =
      ((runChunks en (stepChunk en st ck).1 cks).1,
        (stepChunk en st ck).2 ++ (runChunks en (stepChunk en st ck).1 cks).2) := by
  show List.foldl _ ((stepChunk en st ck).1, [] ++ (stepChunk en st ck).2) cks = _
  rw [runChunks_foldl]
  simp

/-- Splitting one chunk off a stream whose remaining text is
`fcS.drop n`. -/
theorem chunk_split {c : Chars} {rest : List Chars} {n : Nat}
    (h : c ++ rest.flatten = fcS.drop n) (hn : n ≤ 108) :
    c = extractCs n (n + c.length) fcS ∧
      rest.flatten = fcS.drop (n + c.length) ∧ n + c.length ≤ 108 := by
  have hlen : c.length ≤ 108 - n := by
    have h1 : c.length ≤ (fcS.drop n).length := by
      rw [← h]
      simp
    rwa [List.length_drop, fcS_length] at h1
  refine ⟨?_, ?_, by omega⟩
  · have : (fcS.drop n).take c.length = c := by
      rw [← h, List.take_left]
    rw [extractCs, Nat.add_sub_cancel_left, this]
  · have : (fcS.drop n).drop c.length = rest.flatten := by
      rw [← h, List.drop_left]
    rw [← this, List.drop_drop, Nat.add_comm]

theorem runThink (en : Bool) :
    ∀ (cs : List Chars) (st : RState) (n : Nat),
      thinkPhase n st → cs.flatten = fcS.drop n →
      thinkPhase 108 (runChunks en st (cs.map Chunk.thinkingCk)).1 ∧
      (runChunks en st (cs.map Chunk.thinkingCk)).2 = [] := by
  intro cs
  induction cs with
  | nil =>
    intro st n hph hfl
    have hn : n ≤ 108 := hph.2.2.1
    have h8 : n = 108 := by
      have : fcS.drop n = [] := by rw [← hfl]; rfl
      have := List.drop_eq_nil_iff.mp this
      rw [fcS_length] at this
      omega
    subst h8
    exact ⟨hph, rfl⟩
  | cons c rest ih =>
    intro st n hph hfl
    have hn : n ≤ 108 := hph.2.2.1
    simp only [List.flatten_cons] at hfl
    obtain ⟨hc, hrest, hm⟩ := chunk_split hfl hn
    have hstep := thinkPhase_step en st n (n + c.length) hph (by omega) hm
    rw [← hc] at hstep
    simp only [List.map_cons, runChunks_cons]
    have hrun := ih (stepChunk en st (.thinkingCk c)).1 (n + c.length) hstep.1 hrest
    exact ⟨hrun.1, by rw [hstep.2, hrun.2]; rfl⟩

theorem runContent (en : Bool) :
    ∀ (cs : List Chars) (st : RState) (n : Nat),
      contentPhase n st → cs.flatten = fcS.drop n →
      contentPhase 108 (runChunks en st (cs.map Chunk.contentCk)).1 ∧
      (runChunks en st (cs.map Chunk.contentCk)).2 = [] := by
  intro cs
  induction cs with
  | nil =>
    intro st n hph hfl
    have hn : n ≤ 108 := hph.2.2.1
    have h8 : n = 108 := by
      have : fcS.drop n = [] := by rw [← hfl]; rfl
      have := List.drop_eq_nil_iff.mp this
      rw [fcS_length] at this
      omega
    subst h8
    exact ⟨hph, rfl⟩
  | cons c rest ih =>
    intro st n hph hfl
    have hn : n ≤ 108 := hph.2.2.1
    simp only [List.flatten_cons] at hfl
    obtain ⟨hc, hrest, hm⟩ := chunk_split hfl hn
    have hstep := contentPhase_step en st n (n + c.length) hph (by omega) hm
    rw [← hc] at hstep
    simp only [List.map_cons, runChunks_cons]
    have hrun := ih (stepChunk en st (.contentCk c)).1 (n + c.length) hstep.1 hrest
    exact ⟨hrun.1, by rw [hstep.2, hrun.2]; rfl⟩

/-- The end-of-stream blocks change nothing when the round left no
pending output, is not mid-XML, and the leftover thinking buffer holds
no opening tag (or detection already fired). -/
theorem postStream_noop (en : Bool) (st : RState)
    (hix : st.inXml = false) (hpend : st.pendingOutput = [])
    (hb1 : st.thinkingBuffer = [] ∨ st.hasXml = true ∨
      fcOpenSearch st.thinkingBuffer.flatten = none) :
    postStream en st = (st, []) := by
  unfold postStream
  rcases hb1 with h | h | h
  · simp [h, hix, hpend]
  · simp [h, hix, hpend]
  · by_cases htb : st.thinkingBuffer = []
    · simp [htb, hix, hpend]
    · by_cases hhx : st.hasXml = true
      · simp [hhx, hix, hpend]
      · simp [htb, hix, hpend, hhx, h]

theorem thinkPhase_zero : thinkPhase 0 (initRState 0 0) := by
  refine ⟨rfl, rfl, by omega, Or.inl ⟨by omega, by simp [initRState], rfl, rfl⟩⟩

theorem contentPhase_zero : contentPhase 0 (initRState 0 0) := by
  refine ⟨rfl, rfl, by omega, Or.inl ⟨by omega, by simp [initRState], rfl, rfl⟩⟩

/-- C3: for every way of splitting the literal markup
`<function_calls><invoke name="web_search"><parameter name="query">cats
</parameter></invoke></function_calls>` into a sequence of stream
chunks — including splits in the middle of a tag name — delivered
entirely on the thinking channel or entirely on the content channel,
the detector emits no client-visible frame for any character of the
markup, ends with a detected tool call, and the parsed invocations are
exactly one call of `web_search` with arguments `{query: "cats"}`. -/
theorem xml_tool_call_detected (en : Bool) (cs : List Chars)
    (h : cs.flatten = fcS) :
    ((runChunks en (initRState 0 0) (cs.map Chunk.thinkingCk)).2 = [] ∧
     (postStream en (runChunks en (initRState 0 0) (cs.map Chunk.thinkingCk)).1).2 = [] ∧
     (postStream en (runChunks en (initRState 0 0) (cs.map Chunk.thinkingCk)).1).1.hasXml = true ∧
     parseXmlInvocations
       (postStream en (runChunks en (initRState 0 0) (cs.map Chunk.thinkingCk)).1).1.xmlBuffer =
       [(chars "web_search", [(chars "query", PyVal.vstr (chars "cats"))])]) ∧
    ((runChunks en (initRState 0 0) (cs.map Chunk.contentCk)).2 = [] ∧
     (postStream en (runChunks en (initRState 0 0) (cs.map Chunk.contentCk)).1).2 = [] ∧
     (postStream en (runChunks en (initRState 0 0) (cs.map Chunk.contentCk)).1).1.hasXml = true ∧
     parseXmlInvocations
       (postStream en (runChunks en (initRState 0 0) (cs.map Chunk.contentCk)).1).1.xmlBuffer =
       [(chars "web_search", [(chars "query", PyVal.vstr (chars "cats"))])]) := by
  have hfl : cs.flatten = fcS.drop 0 := by simpa using h
  constructor
  · have hT := runThink en cs (initRState 0 0) 0 thinkPhase_zero hfl
    obtain ⟨⟨hacc, hpend, _, hcase⟩, hevs⟩ := hT
    rcases hcase with ⟨hlt, _⟩ | ⟨_, hlt, _⟩ | ⟨_, hix, hhx, hxb⟩
    · omega
    · omega
    · have hnoop := postStream_noop en _ hix hpend (Or.inr (Or.inl hhx))
      rw [hnoop]
      exact ⟨hevs, rfl, hhx, by rw [hxb]; exact fcS_parse⟩
  · have hC := runContent en cs (initRState 0 0) 0 contentPhase_zero hfl
    obtain ⟨⟨hacc, htb, _, hcase⟩, hevs⟩ := hC
    rcases hcase with ⟨hlt, _⟩ | ⟨_, hlt, _⟩ | ⟨_, hpend, hix, hhx, hxb⟩
    · omega
    · omega
    · have hnoop := postStream_noop en _ hix hpend (Or.inl htb)
      rw [hnoop]
      exact ⟨hevs, rfl, hhx, by rw [hxb]; exact fcS_parse⟩

/-- Witness for C3 at a concrete split that cuts both tag names in the
middle. -/
theorem xml_tool_call_detected_witness :
    ((runChunks true (initRState 0 0)
        ([chars "<fun",
          chars "ction_calls><invoke name=\"web_search\"><parameter name=\"query\">cats</parameter></invoke></funct",
          chars "ion_calls>"].map Chunk.thinkingCk)).2 = [] ∧
     (postStream true (runChunks true (initRState 0 0)
        ([chars "<fun",
          chars "ction_calls><invoke name=\"web_search\"><parameter name=\"query\">cats</parameter></invoke></funct",
          chars "ion_calls>"].map Chunk.thinkingCk)).1).2 = [] ∧
     (postStream true (runChunks true (initRState 0 0)
        ([chars "<fun",
          chars "ction_calls><invoke name=\"web_search\"><parameter name=\"query\">cats</parameter></invoke></funct",
          chars "ion_calls>"].map Chunk.thinkingCk)).1).1.hasXml = true ∧
     parseXmlInvocations
       (postStream true (runChunks true (initRState 0 0)
          ([chars "<fun",
            chars "ction_calls><invoke name=\"web_search\"><parameter name=\"query\">cats</parameter></invoke></funct",
            chars "ion_calls>"].map Chunk.thinkingCk)).1).1.xmlBuffer =
       [(chars "web_search", [(chars "query", PyVal.vstr (chars "cats"))])]) ∧
    ((runChunks true (initRState 0 0)
        ([chars "<fun",
          chars "ction_calls><invoke name=\"web_search\"><parameter name=\"query\">cats</parameter></invoke></funct",
          chars "ion_calls>"].map Chunk.contentCk)).2 = [] ∧
     (postStream true (runChunks true (initRState 0 0)
        ([chars "<fun",
          chars "ction_calls><invoke name=\"web_search\"><parameter name=\"query\">cats</parameter></invoke></funct",
          chars "ion_calls>"].map Chunk.contentCk)).1).2 = [] ∧
     (postStream true (runChunks true (initRState 0 0)
        ([chars "<fun",
          chars "ction_calls><invoke name=\"web_search\"><parameter name=\"query\">cats</parameter></invoke></funct",
          chars "ion_calls>"].map Chunk.contentCk)).1).1.hasXml = true ∧
     parseXmlInvocations
       (postStream true (runChunks true (initRState 0 0)
          ([chars "<fun",
            chars "ction_calls><invoke name=\"web_search\"><parameter name=\"query\">cats</parameter></invoke></funct",
            chars "ion_calls>"].map Chunk.contentCk)).1).1.xmlBuffer =
       [(chars "web_search", [(chars "query", PyVal.vstr (chars "cats"))])]) :=
  xml_tool_call_detected true
    [chars "<fun",
     chars "ction_calls><invoke name=\"web_search\"><parameter name=\"query\">cats</parameter></invoke></funct",
     chars "ion_calls>"] (by decide)

theorem chunk_splitG {l c : Chars} {rest : List Chars} {n : Nat}
    (h : c ++ rest.flatten = l.drop n) (hn : n ≤ l.length) :
    c = extractCs n (n + c.length) l ∧
      rest.flatten = l.drop (n + c.length) ∧ n + c.length ≤ l.length := by
  have hlen : c.length ≤ l.length - n := by
    have h1 : c.length ≤ (l.drop n).length := by
      rw [← h]
      simp
    rwa [List.length_drop] at h1
  refine ⟨?_, ?_, by omega⟩
  · have : (l.drop n).take c.length = c := by
      rw [← h, List.take_left]
    rw [extractCs, Nat.add_sub_cancel_left, this]
  · have : (l.drop n).drop c.length = rest.flatten := by
      rw [← h, List.drop_left]
    rw [← this, List.drop_drop, Nat.add_comm]

theorem promoPhase_step (en : Bool) (T : Chars) (hT : noOpenTag T)
    (st : RState) (n m : Nat) (hph : promoPhase T n st) (hnm : n ≤ m)
    (hm : m ≤ T.length) :
    promoPhase T m (stepChunk en st (.thinkingCk (extractCs n m T))).1 := by
  obtain ⟨hacc, hpend, hix, hhx, htc, hn, p, hpn, hbuf⟩ := hph
  by_cases heq : n = m
  · subst heq
    rw [extractCs_self, stepChunk_think_nil]
    exact ⟨hacc, hpend, hix, hhx, htc, hm, p, hpn, hbuf⟩
  have hlt : n < m := lt_of_le_of_ne hnm heq
  have hcne : extractCs n m T ≠ [] := extractCs_ne_nil T hlt hm
  have hflat : (st.thinkingBuffer ++ [extractCs n m T]).flatten = extractCs p m T := by
    rw [flatten_append_one, hbuf, extractCs_append T hpn hnm]
  have hsearch : fcOpenSearch ((st.thinkingBuffer ++ [extractCs n m T]).flatten) = none := by
    rw [hflat]
    exact hT p (by omega) m hm
  have htc' : (st.thinkingContent ++ [extractCs n m T]).flatten = T.take m := by
    rw [flatten_append_one, htc, take_append_extract T hnm]
  by_cases hpot :
      potentialXmlInThinking ((st.thinkingBuffer ++ [extractCs n m T]).flatten) = true
  · rw [stepChunk_think_buffer en st _ hcne hsearch hix hpot]
    exact ⟨hacc, hpend, hix, hhx, htc', hm, p, by omega, hflat⟩
  · have hpot' : potentialXmlInThinking ((st.thinkingBuffer ++ [extractCs n m T]).flatten) = false :=
      (Bool.not_eq_true _).mp hpot
    rw [stepChunk_think_emit en st _ hcne hsearch hix hpot']
    rcases hrf : rfindIdx (· = '<') ((st.thinkingBuffer ++ [extractCs n m T]).flatten) with _ | j
    · exact ⟨hacc, hpend, hix, hhx, htc', hm, m, le_refl m, by simp [extractCs_self]⟩
    · have hj : j < ((st.thinkingBuffer ++ [extractCs n m T]).flatten).length :=
        rfindIdx_lt_length hrf
      rw [hflat] at hj
      have hjm : p + j ≤ m := by
        have : (extractCs p m T).length ≤ m - p := by
          unfold extractCs
          rw [List.length_take]
          omega
        omega
      refine ⟨hacc, hpend, hix, hhx, htc', hm, p + j, by omega, ?_⟩
      rw [List.flatten, List.flatten]
      simp only [List.append_nil]
      rw [hflat, extractCs_drop]

theorem runPromo (en : Bool) (T : Chars) (hT : noOpenTag T) :
    ∀ (cs : List Chars) (st : RState) (n : Nat),
      promoPhase T n st → cs.flatten = T.drop n →
      promoPhase T T.length (runChunks en st (cs.map Chunk.thinkingCk)).1 := by
  intro cs
  induction cs with
  | nil =>
    intro st n hph hfl
    have hn : n ≤ T.length := hph.2.2.2.2.2.1
    have h8 : n = T.length := by
      have : T.drop n = [] := by rw [← hfl]; rfl
      have := List.drop_eq_nil_iff.mp this
      omega
    subst h8
    exact hph
  | cons c rest ih =>
    intro st n hph hfl
    have hn : n ≤ T.length := hph.2.2.2.2.2.1
    simp only [List.flatten_cons] at hfl
    obtain ⟨hc, hrest, hm⟩ := chunk_splitG hfl hn
    have hstep := promoPhase_step en T hT st n (n + c.length) hph (by omega) hm
    rw [← hc] at hstep
    simp only [List.map_cons, runChunks_cons]
    exact ih (stepChunk en st (.thinkingCk c)).1 (n + c.length) hstep hrest

theorem flatten_ne_nil {l : List Chars} (h : l.flatten ≠ []) : l ≠ [] := by
  intro hnil
  rw [hnil] at h
  exact h rfl

theorem afterLoop_promotes (en : Bool) (st : RState) (T : Chars)
    (hacc : st.accumulated = []) (htc : st.thinkingContent.flatten = T)
    (hne : T ≠ []) (hopen : fcOpenSearch T = none) :
    afterLoop en st =
      ({ st with accumulated := [T], thinkingContent := [] },
        (if en ∧ ¬ st.isThinkingDone then [OEvent.thinkingEndFrame T] else []) ++
          [OEvent.dataFrame T]) := by
  have htcne : st.thinkingContent ≠ [] := flatten_ne_nil (by rw [htc]; exact hne)
  simp only [afterLoop, htc, hopen, if_pos (And.intro hacc htcne)]

/-- C9 (amended): in the tool-enabled streaming mode, when a model turn
produces only thinking-channel text `T`, no content-channel text, and
the detector's opening-tag pattern matches in no contiguous segment of
`T` (no tool call is detected), the whole thinking text is promoted:
it is emitted as an answer `data:` frame and becomes the turn's
canonical assistant text. -/
theorem thinking_only_promoted (en : Bool) (cs : List Chars) (T : Chars)
    (hT : cs.flatten = T) (hne : T ≠ []) (hopen : noOpenTag T) :
    toolModeFullText
      (afterLoop en
        (postStream en (runChunks en (initRState 0 0) (cs.map Chunk.thinkingCk)).1).1).1 = T ∧
    OEvent.dataFrame T ∈
      (afterLoop en
        (postStream en (runChunks en (initRState 0 0) (cs.map Chunk.thinkingCk)).1).1).2 := by
  have hph0 : promoPhase T 0 (initRState 0 0) := by
    refine ⟨rfl, rfl, rfl, rfl, by simp [initRState], by omega, 0, le_refl 0,
      by simp [initRState, extractCs_self]⟩
  have hfl : cs.flatten = T.drop 0 := by simpa using hT
  have hrun := runPromo en T hopen cs (initRState 0 0) 0 hph0 hfl
  obtain ⟨hacc, hpend, hix, hhx, htc, _, p, hpn, hbuf⟩ := hrun
  have hTfull : T.take T.length = T := List.take_length T
  rw [hTfull] at htc
  have hnoop := postStream_noop en _ hix hpend
    (Or.inr (Or.inr (by rw [hbuf]; exact hopen p hpn T.length (le_refl _))))
  rw [hnoop]
  have hopenT : fcOpenSearch T = none := by
    have := hopen 0 (Nat.zero_le _) T.length (le_refl _)
    rwa [extractCs_full] at this
  rw [afterLoop_promotes en _ T hacc htc hne hopenT]
  constructor
  · simp [toolModeFullText]
  · simp

/-- Witness for C9 (amended) at the single-chunk thinking stream
`"hi"`. -/
theorem thinking_only_promoted_witness :
    toolModeFullText
      (afterLoop true
        (postStream true (runChunks true (initRState 0 0)
          ([chars "hi"].map Chunk.thinkingCk)).1).1).1 = chars "hi" ∧
    OEvent.dataFrame (chars "hi") ∈
      (afterLoop true
        (postStream true (runChunks true (initRState 0 0)
          ([chars "hi"].map Chunk.thinkingCk)).1).1).2 :=
  thinking_only_promoted true [chars "hi"] (chars "hi") (by decide) (by decide)
    (by decide)

/-- C9 counterexample: in the plain (no-tools) streaming mode — also a
streaming turn — a model turn producing only the thinking text `"hi"`
is *not* promoted: the canonical assistant text stays empty and no
answer `data:` frame carries the thinking text.  The claim as stated
over every streaming turn is therefore false. -/
theorem plain_mode_thinking_not_promoted :
    plainFullText (plainRun true [Chunk.thinkingCk (chars "hi")]).1 = [] ∧
    chars "hi" ≠ [] ∧
    OEvent.dataFrame (chars "hi") ∉ (plainRun true [Chunk.thinkingCk (chars "hi")]).2 := by
  refine ⟨by decide, by decide, by decide⟩

theorem getLast_append_two {α : Type} (pre : List α) (x y : α) :
    (pre ++ [x, y]).getLast? = some y := by
  have : pre ++ [x, y] = (pre ++ [x]) ++ [y] := by simp
  rw [this, List.getLast?_concat]

/-- C8: every streaming turn — tool-mode or plain-mode — in which an
upstream or network error with message `msg` is raised mid-generation,
after any number `k` of already-yielded frames, still terminates
cleanly: the emitted frame sequence ends with the inline
`data: [错误] <msg>` frame followed by the literal `data: [DONE]`
terminator, so the client's event-source consumer never hangs.  The
fault-free runs end the same way (their own persistence calls raise,
and the same handlers wrap them). -/
theorem streaming_error_envelope (en kb web mcp : Bool)
    (replies : List NativeReply) (rounds : List RoundIn)
    (chunks : List Chunk) (modelName : Chars) (messagesJsonLen : Nat)
    (faultT faultP : Option (Nat × Chars)) :
    (∃ pre msg,
      eventStreamTool en kb web mcp replies rounds modelName faultT =
        pre ++ [TFrame.ev (OEvent.dataFrame (chars "[错误] " ++ msg)),
          TFrame.ev (OEvent.dataFrame (chars "[DONE]"))] ∧
      (eventStreamTool en kb web mcp replies rounds modelName faultT).getLast? =
        some (TFrame.ev (OEvent.dataFrame (chars "[DONE]")))) ∧
    (∃ pre msg,
      eventStreamPlain en chunks modelName messagesJsonLen faultP =
        pre ++ [OEvent.dataFrame (chars "[错误] " ++ msg),
          OEvent.dataFrame (chars "[DONE]")] ∧
      (eventStreamPlain en chunks modelName messagesJsonLen faultP).getLast? =
        some (OEvent.dataFrame (chars "[DONE]"))) := by
  constructor
  · match faultT with
    | some f =>
      refine ⟨(toolNormalFrames en kb web mcp replies rounds modelName).take f.1,
        f.2, rfl, ?_⟩
      exact getLast_append_two _ _ _
    | none =>
      refine ⟨toolNormalFrames en kb web mcp replies rounds modelName,
        streamSaveError, rfl, ?_⟩
      exact getLast_append_two _ _ _
  · match faultP with
    | some f =>
      refine ⟨(plainNormalFrames en chunks modelName messagesJsonLen).take f.1, f.2,
        rfl, ?_⟩
      exact getLast_append_two _ _ _
    | none =>
      refine ⟨plainNormalFrames en chunks modelName messagesJsonLen,
        streamSaveError, rfl, ?_⟩
      exact getLast_append_two _ _ _

theorem usageDictGet_prompt (u : UsageInfo) :
    usageDictGet u (chars "prompt_tokens") = 0 := rfl

theorem usageDictGet_completion (u : UsageInfo) :
    usageDictGet u (chars "completion_tokens") = 0 := rfl

theorem stepChunk_totals (en : Bool) (st : RState) (ck : Chunk) :
    (stepChunk en st ck).1.totalIn = st.totalIn ∧
    (stepChunk en st ck).1.totalOut = st.totalOut := by
  cases ck with
  | usage u =>
    simp [stepChunk, usageDictGet_prompt, usageDictGet_completion]
  | thinkingCk t =>
    simp only [stepChunk]
    repeat' split
    all_goals simp_all
  | contentCk d =>
    simp only [stepChunk]
    repeat' split
    all_goals simp_all

theorem runChunks_totals (en : Bool) :
    ∀ (chunks : List Chunk) (st : RState),
      (runChunks en st chunks).1.totalIn = st.totalIn ∧
      (runChunks en st chunks).1.totalOut = st.totalOut := by
  intro chunks
  induction chunks with
  | nil => intro st; exact ⟨rfl, rfl⟩
  | cons ck cks ih =>
    intro st
    rw [runChunks_cons]
    obtain ⟨h1, h2⟩ := ih (stepChunk en st ck).1
    obtain ⟨h3, h4⟩ := stepChunk_totals en st ck
    exact ⟨by rw [h1, h3], by rw [h2, h4]⟩

theorem call_create_message_stream_error
    (conversation_id : Nat) (role content : Chars) (ti : Option TokenInfo) :
    call_create_message stream_save_kwargs conversation_id role content ti =
      .error (.typeError (chars
        "create_message() got an unexpected keyword argument 'tool_calls'")) := rfl

theorem call_create_message_partial_error
    (conversation_id : Nat) (role content : Chars) (ti : Option TokenInfo) :
    call_create_message save_partial_kwargs conversation_id role content ti =
      .error (.typeError (chars
        "create_message() got an unexpected keyword argument 'tool_calls'")) := rfl

/-- C1: the streaming token accounting contradicts the claim on three
counts.  (a) The token totals of a tool-mode streaming round never
change across the round, whatever chunks (including `usage` reports)
arrive: the code reads `prompt_tokens`/`completion_tokens` from a usage
dict whose keys are `input_tokens`/`output_tokens`, so streaming usage
is dropped and the persisted-total-equals-sum property fails whenever
streaming usage is non-zero.  (b) Concretely, a round that reports
usage (5, 7) and produces non-empty text ends with
`total_tokens = 0` — no estimate is made in the tool-mode path.
(c) The persistence call itself always raises `TypeError` (unexpected
keyword argument), so no assistant message is persisted by the
streaming paths at all. -/
theorem stream_token_accounting_bug :
    (∀ (en : Bool) (chunks : List Chunk) (tIn tOut : Int) (modelName : Chars),
      (toolModeTokenInfo (runChunks en (initRState tIn tOut) chunks).1
        modelName).total_tokens = tIn + tOut ∧
      (toolModeTokenInfo (runChunks en (initRState tIn tOut) chunks).1
        modelName).estimated = false) ∧
    ((toolModeTokenInfo
        (runChunks false (initRState 0 0)
          [Chunk.usage ⟨chars "m", 5, 7, 12⟩, Chunk.contentCk (chars "hello")]).1
        (chars "m")).total_tokens = 0 ∧
      toolModeFullText
        (runChunks false (initRState 0 0)
          [Chunk.usage ⟨chars "m", 5, 7, 12⟩, Chunk.contentCk (chars "hello")]).1 =
        chars "hello") ∧
    (∀ (conversation_id : Nat) (role content : Chars) (ti : Option TokenInfo),
      ∃ msg, call_create_message stream_save_kwargs conversation_id role content ti =
        .error (.typeError msg)) := by
  refine ⟨?_, ⟨by decide, by decide⟩, ?_⟩
  · intro en chunks tIn tOut modelName
    obtain ⟨h1, h2⟩ := runChunks_totals en chunks (initRState tIn tOut)
    constructor
    · show (runChunks en (initRState tIn tOut) chunks).1.totalIn +
        (runChunks en (initRState tIn tOut) chunks).1.totalOut = tIn + tOut
      rw [h1, h2]
      rfl
    · rfl
  · intro cid role content ti
    exact ⟨_, call_create_message_stream_error cid role content ti⟩

/-- C2: `save_partial_message` never persists anything: its
`crud.create_message(..., tool_calls=None, thinking_content=...)` call
raises `TypeError` (crud.py declares no such parameters), so the
endpoint returns a 500 and no Message row with the interrupted content
exists.  Shown concretely for content `"Hello"` and universally for
every input. -/
theorem save_partial_message_type_error :
    save_partial_message true 1 (chars "Hello") none =
      .error (.typeError (chars
        "create_message() got an unexpected keyword argument 'tool_calls'")) ∧
    ∀ (conversationExists : Bool) (conversation_id : Nat) (content : Chars)
      (modelName : Option Chars) (m : MessageRow),
      save_partial_message conversationExists conversation_id content modelName ≠
        .ok (.saved m) := by
  constructor
  · rfl
  · intro b cid content mn m h
    unfold save_partial_message at h
    split at h
    · cases h
    · split at h
      · injection h with h'
        cases h'
      · simp only [call_create_message_partial_error] at h
        cases h

theorem get_context_messages_pairs :
    ∀ msgs : List StoredMessage, CompletePairs (get_context_messages msgs) := by
  intro msgs
  induction msgs using get_context_messages.induct with
  | case1 u a rest hcond ih =>
    rw [get_context_messages, if_pos hcond]
    exact CompletePairs.pair u a _ hcond.1 hcond.2 ih
  | case2 u a rest hcond ih =>
    rw [get_context_messages, if_neg hcond]
    exact ih
  | case3 l h1 =>
    match l, h1 with
    | [], _ => exact CompletePairs.nil
    | [x], _ => exact CompletePairs.nil
    | u :: a :: rest, h1 => exact (h1 u a rest rfl).elim

theorem get_context_messages_sublist :
    ∀ msgs : List StoredMessage, (get_context_messages msgs).Sublist msgs := by
  intro msgs
  induction msgs using get_context_messages.induct with
  | case1 u a rest hcond ih =>
    rw [get_context_messages, if_pos hcond]
    exact (ih.cons₂ a).cons₂ u
  | case2 u a rest hcond ih =>
    rw [get_context_messages, if_neg hcond]
    exact ih.cons u
  | case3 l h1 =>
    match l, h1 with
    | [], _ => exact List.Sublist.refl []
    | [x], _ => exact List.nil_sublist [x]
    | u :: a :: rest, h1 => exact (h1 u a rest rfl).elim

theorem getLast?_drop_of_lt {α : Type} {l : List α} {n : Nat}
    (h : n < l.length) : (l.drop n).getLast? = l.getLast? := by
  have hne : l.drop n ≠ [] := by
    intro hnil
    have := List.drop_eq_nil_iff.mp hnil
    omega
  conv_rhs => rw [← List.take_append_drop n l]
  rw [List.getLast?_append_of_ne_nil _ hne]

/-- C5: spec-modelled context assembly.  `get_context_messages` yields
only complete question/answer pairs, oldest-first (a subsequence of the
stored order); `optimize_messages` bounds the history to
`2 * max_turns` trailing messages by oldest-first truncation and, for a
positive turn bound, never drops the newest message. -/
theorem context_assembly_bounded (history messages : List StoredMessage)
    (max_turns : Nat) (hpos : 0 < max_turns) :
    CompletePairs (get_context_messages history) ∧
    (get_context_messages history).Sublist history ∧
    (optimize_messages messages max_turns).length ≤ 2 * max_turns ∧
    (optimize_messages messages max_turns).IsSuffix messages ∧
    (messages ≠ [] →
      (optimize_messages messages max_turns).getLast? = messages.getLast?) := by
  refine ⟨get_context_messages_pairs history, get_context_messages_sublist history,
    ?_, ?_, ?_⟩
  · unfold optimize_messages
    rw [List.length_drop]
    omega
  · exact List.drop_suffix _ _
  · intro hne
    unfold optimize_messages
    apply getLast?_drop_of_lt
    have : 0 < messages.length := List.length_pos.mpr hne
    omega

/-- Witness for C5 at a two-message history (one complete pair) and
`max_turns = 6`. -/
theorem context_assembly_bounded_witness :
    CompletePairs (get_context_messages
      [⟨1, chars "user", chars "q"⟩, ⟨2, chars "assistant", chars "a"⟩]) ∧
    (get_context_messages
      [⟨1, chars "user", chars "q"⟩, ⟨2, chars "assistant", chars "a"⟩]).Sublist
      [⟨1, chars "user", chars "q"⟩, ⟨2, chars "assistant", chars "a"⟩] ∧
    (optimize_messages
      [⟨1, chars "user", chars "q"⟩, ⟨2, chars "assistant", chars "a"⟩] 6).length ≤ 2 * 6 ∧
    (optimize_messages
      [⟨1, chars "user", chars "q"⟩, ⟨2, chars "assistant", chars "a"⟩] 6).IsSuffix
      [⟨1, chars "user", chars "q"⟩, ⟨2, chars "assistant", chars "a"⟩] ∧
    ([⟨1, chars "user", chars "q"⟩, ⟨2, chars "assistant", chars "a"⟩] ≠
        ([] : List StoredMessage) →
      (optimize_messages
        [⟨1, chars "user", chars "q"⟩, ⟨2, chars "assistant", chars "a"⟩] 6).getLast? =
        [⟨1, chars "user", chars "q"⟩, ⟨2, chars "assistant", chars "a"⟩].getLast?) :=
  context_assembly_bounded
    [⟨1, chars "user", chars "q"⟩, ⟨2, chars "assistant", chars "a"⟩]
    [⟨1, chars "user", chars "q"⟩, ⟨2, chars "assistant", chars "a"⟩] 6 (by decide)

